import Mathlib

set_option maxHeartbeats 4000000
set_option linter.unusedVariables false
set_option maxRecDepth 10000

/-!
Verification development for the Sync-V drive core.

Shallow embedding of the core subsystems of src/drive/src into Lean:
the SHA-256 hasher (HashVerifier.cpp), the AES-256-CBC cipher
(EncryptedStorage.cpp), the firmware staging state machine
(FirmwareReceiver.cpp), the resumable transfer engine
(TransferManager.cpp) and the USB mass-storage orchestrator
(UsbGadget.cpp).  Bytes are modelled as Nat values below 256, machine
words as Nat reduced modulo 2 to the 32 where the source wraps.  File
system and platform effects are modelled by explicit state passing;
randomness (the IV source) is an explicit parameter.
-/

namespace SyncV

/-! ## Part 1: definitions -/

/-! ### SHA-256 (HashVerifier.cpp)

The context holds eight 32-bit state words, the pending partial block
and the running bit counter.  The 64-byte buffer of the source together
with bitcount mod 512 is represented by the list of pending bytes
(the source never reads buffer cells beyond the current index).
-/

/-- Round constant table K of sha256Transform. -/
def K256 : List Nat :=
  [0x428A2F98, 0x71374491, 0xB5C0FBCF, 0xE9B5DBA5,
   0x3956C25B, 0x59F111F1, 0x923F82A4, 0xAB1C5ED5,
   0xD807AA98, 0x12835B01, 0x243185BE, 0x550C7DC3,
   0x72BE5D74, 0x80DEB1FE, 0x9BDC06A7, 0xC19BF174,
   0xE49B69C1, 0xEFBE4786, 0x0FC19DC6, 0x240CA1CC,
   0x2DE92C6F, 0x4A7484AA, 0x5CB0A9DC, 0x76F988DA,
   0x983E5152, 0xA831C66D, 0xB00327C8, 0xBF597FC7,
   0xC6E00BF3, 0xD5A79147, 0x06CA6351, 0x14292967,
   0x27B70A85, 0x2E1B2138, 0x4D2C6DFC, 0x53380D13,
   0x650A7354, 0x766A0ABB, 0x81C2C92E, 0x92722C85,
   0xA2BFE8A1, 0xA81A664B, 0xC24B8B70, 0xC76C51A3,
   0xD192E819, 0xD6990624, 0xF40E3585, 0x106AA070,
   0x19A4C116, 0x1E376C08, 0x2748774C, 0x34B0BCB5,
   0x391C0CB3, 0x4ED8AA4A, 0x5B9CCA4F, 0x682E6FF3,
   0x748F82EE, 0x78A5636F, 0x84C87814, 0x8CC70208,
   0x90BEFFFA, 0xA4506CEB, 0xBEF9A3F7, 0xC67178F2]

/-- Right rotation of a 32-bit word, mirroring rotr of the source. -/
def rotr32 (x n : Nat) : Nat := (x >>> n) ||| ((x <<< (32 - n)) % 4294967296)

/-- Choice function ch of the source; the complement of x is modelled as
xor with the all-ones 32-bit word. -/
def sha256Ch (x y z : Nat) : Nat := (x &&& y) ^^^ ((x ^^^ 4294967295) &&& z)

/-- Majority function maj of the source. -/
def sha256Maj (x y z : Nat) : Nat := (x &&& y) ^^^ (x &&& z) ^^^ (y &&& z)

/-- Big sigma0 of the source. -/
def sigma0 (x : Nat) : Nat := rotr32 x 2 ^^^ rotr32 x 13 ^^^ rotr32 x 22

/-- Big sigma1 of the source. -/
def sigma1 (x : Nat) : Nat := rotr32 x 6 ^^^ rotr32 x 11 ^^^ rotr32 x 25

/-- Small gamma0 of the source. -/
def gamma0 (x : Nat) : Nat := rotr32 x 7 ^^^ rotr32 x 18 ^^^ (x >>> 3)

/-- Small gamma1 of the source. -/
def gamma1 (x : Nat) : Nat := rotr32 x 17 ^^^ rotr32 x 19 ^^^ (x >>> 10)

/-- SHA256Context of the source: eight state words, the pending bytes of
the current block, and the total bit counter. -/
structure Sha256Ctx where
  state : List Nat
  pending : List Nat
  bitcount : Nat
deriving DecidableEq

/-- First sixteen schedule words, big-endian packing of the 64 block
bytes as in sha256Transform. -/
def sha256InitWords (block : List Nat) : List Nat :=
  (List.range 16).map (fun i =>
    (block.getD (4 * i) 0) <<< 24 ||| (block.getD (4 * i + 1) 0) <<< 16 |||
    (block.getD (4 * i + 2) 0) <<< 8 ||| block.getD (4 * i + 3) 0)

/-- Message schedule extension loop of sha256Transform, appending one
word per step; additions wrap modulo 2 to the 32 as uint32 arithmetic. -/
def sha256Extend : Nat → List Nat → List Nat
  | 0, ws => ws
  | n + 1, ws =>
    sha256Extend n (ws ++ [(gamma1 (ws.getD (ws.length - 2) 0) + ws.getD (ws.length - 7) 0 +
      gamma0 (ws.getD (ws.length - 15) 0) + ws.getD (ws.length - 16) 0) % 4294967296])

/-- One round of the compression loop of sha256Transform on the register
list a b c d e f g h. -/
def sha256Round (r : List Nat) (kw : Nat × Nat) : List Nat :=
  match r with
  | [a, b, c, d, e, f, g, h] =>
    let t1 := (h + sigma1 e + sha256Ch e f g + kw.1 + kw.2) % 4294967296
    let t2 := (sigma0 a + sha256Maj a b c) % 4294967296
    [(t1 + t2) % 4294967296, a, b, c, (d + t1) % 4294967296, e, f, g]
  | _ => r

/-- Process one 64-byte block, as sha256Transform of the source. -/
def sha256Transform (state : List Nat) (block : List Nat) : List Nat :=
  let ws := sha256Extend 48 (sha256InitWords block)
  let r := (K256.zip ws).foldl sha256Round state
  List.zipWith (fun s v => (s + v) % 4294967296) state r

/-- Initial context of sha256Init. -/
def sha256Init : Sha256Ctx :=
  ⟨[0x6A09E667, 0xBB67AE85, 0x3C6EF372, 0xA54FF53A,
    0x510E527F, 0x9B05688C, 0x1F83D9AB, 0x5BE0CD19], [], 0⟩

/-- Feed one byte into the context; when the pending block is full it is
compressed, exactly as one iteration of the loop of sha256Update. -/
def sha256UpdateByte (ctx : Sha256Ctx) (b : Nat) : Sha256Ctx :=
  let p := ctx.pending ++ [b]
  if p.length = 64 then ⟨sha256Transform ctx.state p, [], ctx.bitcount + 8⟩
  else ⟨ctx.state, p, ctx.bitcount + 8⟩

/-- sha256Update of the source: the byte loop over the input.  The
source adds len times 8 to bitcount up front; adding 8 per byte is the
same total. -/
def sha256Update (ctx : Sha256Ctx) (data : List Nat) : Sha256Ctx :=
  data.foldl sha256UpdateByte ctx

/-- Big-endian 8-byte encoding of the bit counter written at offsets
56..63 of the final block. -/
def sha256LenBytes (bits : Nat) : List Nat :=
  (List.range 8).map (fun j => (bits >>> (8 * (7 - j))) % 256)

/-- sha256Final of the source: append 0x80, flush a full block when the
pending data overflows 56 bytes, zero-pad to 56, append the length, run
the final transform and serialize the state big-endian. -/
def sha256Final (ctx : Sha256Ctx) : List Nat :=
  let p := ctx.pending ++ [128]
  let st1 := if p.length > 56 then sha256Transform ctx.state (p ++ List.replicate (64 - p.length) 0)
             else ctx.state
  let rest := if p.length > 56 then [] else p
  let finalBlock := rest ++ List.replicate (56 - rest.length) 0 ++ sha256LenBytes ctx.bitcount
  let st2 := sha256Transform st1 finalBlock
  (st2.map (fun w => [(w >>> 24) % 256, (w >>> 16) % 256, (w >>> 8) % 256, w % 256])).flatten

/-- Lowercase hex digit of a value below 16, as ASCII code. -/
def hexDigit (n : Nat) : Nat := if n < 10 then 48 + n else 87 + n

/-- toHex of the source; a hex string is modelled as the list of its
ASCII codes. -/
def toHex (digest : List Nat) : List Nat :=
  (digest.map (fun b => [hexDigit (b / 16), hexDigit (b % 16)])).flatten

/-- hashString of the source: one-shot hash, rendered to hex. -/
def hashString (data : List Nat) : List Nat :=
  toHex (sha256Final (sha256Update sha256Init data))

/-- Chunking loop with explicit fuel; the fuel is an upper bound on the
list length, so the fallback empty result is never reached from
chunksOf. -/
def chunksOfAux : Nat → Nat → List Nat → List (List Nat)
  | 0, _, _ => []
  | fuel + 1, n, l =>
    if l = [] then []
    else if n = 0 then [l]
    else l.take n :: chunksOfAux fuel n (l.drop n)

/-- Split a list into chunks of n bytes, as the 8 KiB read loop of
hashFile partitions a file. -/
def chunksOf (n : Nat) (l : List Nat) : List (List Nat) :=
  chunksOfAux l.length n l

/-- hashFile of the source, on the byte contents of an existing readable
file: stream the contents in 8192-byte chunks through update, then
finalize.  The missing-file branch (empty result) is handled by the
callers. -/
def hashFile (contents : List Nat) : List Nat :=
  toHex (sha256Final ((chunksOf 8192 contents).foldl sha256Update sha256Init))

/-- verifyFile of the source on the contents of an existing file: the
length guard followed by the constant-time comparison, whose result is
exactly list equality. -/
def verifyFile (contents : List Nat) (expectedHash : List Nat) : Bool :=
  let actual := hashFile contents
  if actual.isEmpty || actual.length != expectedHash.length then false
  else actual == expectedHash

/-! ### TransferManager (TransferManager.cpp)

The file system is modelled as a map from path to optional contents.
Writes are modelled as succeeding; wall-clock duration is zero, so
bytesPerSecond equals bytesTransferred by the zero-duration convention
of the source.
-/

/-- TransferResult of the source; bytesPerSecond is a Nat because the
modelled duration is always zero. -/
structure TransferResult where
  success : Bool
  errorMessage : String
  bytesTransferred : Nat
  bytesPerSecond : Nat
deriving DecidableEq

/-- The chunked copy loop of transferWithOffset: number of bytes read
and written when copying the remaining source bytes in chunks of
chunkSize.  The source loops forever when chunkSize is zero; the model
returns 0 in that unreachable configuration. -/
def copyChunks (chunkSize : Nat) (l : List Nat) : Nat :=
  if h : l = [] then 0
  else if h2 : chunkSize = 0 then 0
  else min chunkSize l.length + copyChunks chunkSize (l.drop chunkSize)
termination_by l.length
decreasing_by
  have hl := List.length_pos.mpr h
  simp only [List.length_drop]
  omega

/-- transferWithOffset of the source: missing source fails; otherwise
seek to offset, copy chunk by chunk, and report offset plus the bytes
copied in this call. -/
def transferWithOffset (fs : String → Option (List Nat)) (chunkSize : Nat)
    (srcPath dstPath : String) (offset : Nat) : TransferResult :=
  match fs srcPath with
  | none => ⟨false, "Source file not found: " ++ srcPath, 0, 0⟩
  | some content =>
    let copied := copyChunks chunkSize (content.drop offset)
    ⟨true, "", offset + copied, offset + copied⟩

/-- transfer of the source: a fresh transfer is an offset-0 transfer. -/
def transfer (fs : String → Option (List Nat)) (chunkSize : Nat)
    (srcPath dstPath : String) : TransferResult :=
  transferWithOffset fs chunkSize srcPath dstPath 0

/-- One record of the partial-transfer map of the source: source path,
destination path, bytes completed. -/
structure PartTransferInfo where
  srcPath : String
  dstPath : String
  bytesCompleted : Nat
deriving DecidableEq

/-- recordPartialTransfer of the source: insert or overwrite the map
entry keyed by the source path. -/
def recordPartialTransfer (m : List PartTransferInfo) (src dst : String) (bytes : Nat) :
    List PartTransferInfo :=
  ⟨src, dst, bytes⟩ :: m.filter (fun e => e.srcPath ≠ src)

/-- resumeTransfer of the source: consume the recorded entry for the
source path and restart at its byte count; with no entry, fall back to a
fresh transfer. -/
def resumeTransfer (fs : String → Option (List Nat)) (chunkSize : Nat)
    (m : List PartTransferInfo) (srcPath dstPath : String) :
    TransferResult × List PartTransferInfo :=
  match m.find? (fun e => e.srcPath == srcPath) with
  | none => (transfer fs chunkSize srcPath dstPath, m)
  | some e => (transferWithOffset fs chunkSize srcPath dstPath e.bytesCompleted,
               m.filter (fun x => x.srcPath ≠ srcPath))

/-- retryWithBackoff of the source, from a given attempt index: returns
the result, the number of invocations performed, and the list of sleep
durations in milliseconds.  The operation is modelled as the sequence of
results of its successive invocations. -/
def retryAux (f : Nat → Bool) (maxRetries baseBackoffMs : Nat) (attempt : Nat) :
    Bool × Nat × List Nat :=
  if h : attempt < maxRetries then
    if f attempt then (true, 1, [])
    else
      let r := retryAux f maxRetries baseBackoffMs (attempt + 1)
      (r.1, r.2.1 + 1,
        if attempt < maxRetries - 1 then baseBackoffMs * 2 ^ attempt :: r.2.2 else r.2.2)
  else (false, 0, [])
termination_by maxRetries - attempt

/-- retryWithBackoff of the source: run the attempt loop from 0. -/
def retryWithBackoff (f : Nat → Bool) (maxRetries baseBackoffMs : Nat) :
    Bool × Nat × List Nat :=
  retryAux f maxRetries baseBackoffMs 0

/-! ### FirmwareReceiver (FirmwareReceiver.cpp)

The status map and the two directories are modelled as maps from
filename to optional value.  File writes and the install copy are
modelled as succeeding (no I/O errors); staged files persist until
overwritten.
-/

/-- FirmwareStatus of the source. -/
inductive FirmwareStatus where
  | NotFound | Received | Verified | Applied | Failed
deriving DecidableEq

/-- State of a FirmwareReceiver: the status map plus the contents of the
staging and installed directories. -/
structure FwState where
  statusMap : String → Option FirmwareStatus
  staging : String → Option (List Nat)
  installed : String → Option (List Nat)

/-- Freshly constructed receiver: empty map, empty directories. -/
def fwInit : FwState := ⟨fun _ => none, fun _ => none, fun _ => none⟩

/-- Update the status map at one filename. -/
def setStatus (s : FwState) (n : String) (v : FirmwareStatus) : FwState :=
  { s with statusMap := fun m => if m = n then some v else s.statusMap m }

/-- receive of the source: empty data fails with status Failed and no
file written; otherwise the bytes are written under staging and the
status becomes Received. -/
def fwReceive (s : FwState) (n : String) (data : List Nat) : FwState × Bool :=
  if data.isEmpty then (setStatus s n .Failed, false)
  else
    ({ setStatus s n .Received with
       staging := fun m => if m = n then some data else s.staging m }, true)

/-- verifyIntegrity of the source: a missing staged file returns false
without touching the status; otherwise the hash comparison decides
between Verified and Failed.  The current status is never consulted. -/
def fwVerify (s : FwState) (n : String) (expectedHash : List Nat) : FwState × Bool :=
  match s.staging n with
  | none => (s, false)
  | some c =>
    if verifyFile c expectedHash then (setStatus s n .Verified, true)
    else (setStatus s n .Failed, false)

/-- apply of the source: rejected unless the status is exactly Verified;
on success the staged bytes are copied to installed and the status
becomes Applied.  The copy-failure branch (status Failed) is unreachable
in the model because a Verified record always has a staged file. -/
def fwApply (s : FwState) (n : String) : FwState × Bool :=
  if s.statusMap n = some FirmwareStatus.Verified then
    match s.staging n with
    | some c =>
      ({ setStatus s n .Applied with
         installed := fun m => if m = n then some c else s.installed m }, true)
    | none => (setStatus s n .Failed, false)
  else (s, false)

/-- getStatus of the source: absent names report NotFound. -/
def getStatus (s : FwState) (n : String) : FirmwareStatus :=
  (s.statusMap n).getD .NotFound

/-- One public operation on a FirmwareReceiver. -/
inductive FwOp where
  | receive (n : String) (data : List Nat)
  | verify (n : String) (expectedHash : List Nat)
  | apply (n : String)

/-- Dispatch one operation. -/
def fwStep (s : FwState) : FwOp → FwState × Bool
  | .receive n d => fwReceive s n d
  | .verify n e => fwVerify s n e
  | .apply n => fwApply s n

/-- Run a sequence of operations, returning the final state and the
trace annotated with each operation and its returned Bool. -/
def fwRun (s : FwState) : List FwOp → FwState × List (FwOp × Bool)
  | [] => (s, [])
  | op :: rest =>
    let r := fwStep s op
    let t := fwRun r.1 rest
    (t.1, (op, r.2) :: t.2)

/-- Scan an annotated trace from the most recent event backwards; the
claimed predicate of the spec: the most recent verify for the name
returned true and no receive for the name happened after it.  The input
list is the reversed trace. -/
def lastVerifyTrueRev (n : String) : List (FwOp × Bool) → Bool
  | [] => false
  | (FwOp.verify m _, r) :: rest => if m = n then r else lastVerifyTrueRev n rest
  | (FwOp.receive m _, _) :: rest => if m = n then false else lastVerifyTrueRev n rest
  | (FwOp.apply _, _) :: rest => lastVerifyTrueRev n rest

/-- Modelled from the spec: the predicate of claim C2 as written — apply
should return true iff the most recent verify for the name returned true
and no receive for the name intervened (applies are not mentioned). -/
def claimApplyOk (n : String) (ann : List (FwOp × Bool)) : Bool :=
  lastVerifyTrueRev n ann.reverse

/-- Amended trace predicate: as lastVerifyTrueRev, but an intervening
apply for the name also clears the condition.  The input list is the
reversed trace. -/
def lastVerifyTrueNoApplyRev (n : String) : List (FwOp × Bool) → Bool
  | [] => false
  | (FwOp.verify m _, r) :: rest => if m = n then r else lastVerifyTrueNoApplyRev n rest
  | (FwOp.receive m _, _) :: rest => if m = n then false else lastVerifyTrueNoApplyRev n rest
  | (FwOp.apply m, _) :: rest => if m = n then false else lastVerifyTrueNoApplyRev n rest

/-- Amended predicate on a trace in order: the most recent verify for
the name returned true and neither a receive nor an apply for the name
intervened since. -/
def specApplyOk (n : String) (ann : List (FwOp × Bool)) : Bool :=
  lastVerifyTrueNoApplyRev n ann.reverse

/-- Run invariant of the firmware state machine for one name: the
status is Verified exactly when the amended trace predicate holds, and
any record in Received, Verified or Applied has its staged file
present. -/
def FwInv (n : String) (s : FwState) (ann : List (FwOp × Bool)) : Prop :=
  (s.statusMap n = some FirmwareStatus.Verified ↔ specApplyOk n ann = true) ∧
  ((s.statusMap n = some FirmwareStatus.Received ∨
    s.statusMap n = some FirmwareStatus.Verified ∨
    s.statusMap n = some FirmwareStatus.Applied) → s.staging n ≠ none)

/-! ### UsbGadget (UsbGadget.cpp)

The platform world is folded into the state: whether the backing image
file exists, whether the configfs skeleton exists, the mount flag, the
attribute contents, the regular files inside the FAT image, and the
fixed list of available UDC names.  Privileged shell commands are
modelled as succeeding exactly when their preconditions hold (dd always,
mkfs and mount when the image file exists, configfs writes when the
skeleton exists).  Observable backend calls that touch the image while
it could be host-visible — mount, in-image copy, in-image delete,
unmount — are logged as events tagged with the exposed flag at the
moment of the call. -/

/-- Kind of an observed platform call on the backing image. -/
inductive UEvKind where
  | mount | unmount | copyIn (dst : String) | delIn (name : String)
deriving DecidableEq

/-- One observed platform call, tagged with whether the gadget was
exposed to the host at that moment. -/
structure UEv where
  kind : UEvKind
  exposedAt : Bool
deriving DecidableEq

/-- State of a UsbGadget plus its platform world.  The fields inited and
exposed model the members initialized und exposed of the source class;
udcs is the fixed contents of /sys/class/udc. -/
structure UsbState where
  inited : Bool
  exposed : Bool
  configfs : Bool
  imageExists : Bool
  mounted : Bool
  lunFile : String
  udcAttr : String
  imageFiles : List String
  udcs : List String
deriving DecidableEq

/-- Initial state with a given UDC population: nothing created. -/
def usbInit0 (udcs : List String) : UsbState :=
  ⟨false, false, false, false, false, "", "", [], udcs⟩

/-- createImage of the source: succeeds immediately when the image
exists, otherwise dd creates it. -/
def createImage (s : UsbState) : Bool × UsbState :=
  if s.imageExists then (true, s) else (true, { s with imageExists := true })

/-- formatImage of the source: mkfs.vfat succeeds when the image file
exists and wipes its contents. -/
def formatImage (s : UsbState) : Bool × UsbState :=
  if s.imageExists then (true, { s with imageFiles := [] }) else (false, s)

/-- setupConfigfs of the source: when the skeleton already exists it
returns early without setting the initialized flag; otherwise it creates
the skeleton, writes the descriptors, and sets initialized. -/
def setupConfigfs (s : UsbState) : Bool × UsbState :=
  if s.configfs then (true, s)
  else (true, { s with configfs := true, lunFile := "", inited := true })

/-- init of the source: modprobe, create image, format, configfs. -/
def usbInitOp (s : UsbState) : Bool × UsbState :=
  let r1 := createImage s
  if !r1.1 then (false, r1.2)
  else
    let r2 := formatImage r1.2
    if !r2.1 then (false, r2.2)
    else setupConfigfs r2.2

/-- mountImage of the source: the mount point is created, then the loop
mount is attempted (an observed call); it succeeds when the image file
exists. -/
def mountImage (s : UsbState) : Bool × UsbState × List UEv :=
  if s.imageExists then (true, { s with mounted := true }, [⟨.mount, s.exposed⟩])
  else (false, s, [⟨.mount, s.exposed⟩])

/-- unmountImage of the source: sync then umount; the call is observed
and the source returns true whether or not the umount succeeded. -/
def unmountImage (s : UsbState) : Bool × UsbState × List UEv :=
  (true, { s with mounted := false }, [⟨.unmount, s.exposed⟩])

/-- prepareImage of the source: mount, copy every pair into the image
(overwriting), delete every image file not in the supplied set, sync,
unmount.  Copies are modelled as succeeding. -/
def prepareImage (s : UsbState) (files : List (String × String)) :
    Bool × UsbState × List UEv :=
  let m := mountImage s
  if !m.1 then (false, m.2.1, m.2.2)
  else
    let s1 := m.2.1
    let dsts := files.map (fun p => p.2)
    let afterCopy := { s1 with
      imageFiles := s1.imageFiles.filter (fun f => f ∉ dsts) ++ dsts }
    let copyEvs := dsts.map (fun d => UEv.mk (.copyIn d) s1.exposed)
    let removed := s1.imageFiles.filter (fun f => f ∉ dsts)
    let afterClean := { afterCopy with imageFiles := dsts }
    let delEvs := removed.map (fun f => UEv.mk (.delIn f) s1.exposed)
    let u := unmountImage afterClean
    (true, u.2.1, m.2.2 ++ copyEvs ++ delEvs ++ u.2.2)

/-- expose of the source: write the image path into the LUN backing file
attribute (fails when the skeleton is absent), pick the first UDC, bind
it, and set the exposed flag.  No state precondition is checked. -/
def expose (s : UsbState) : Bool × UsbState × List UEv :=
  if !s.configfs then (false, s, [])
  else
    let s1 := { s with lunFile := "image" }
    match s1.udcs with
    | [] => (false, s1, [])
    | udc :: _ => (true, { s1 with udcAttr := udc, exposed := true }, [])

/-- unexpose of the source: a no-op returning true when not exposed;
otherwise clear the UDC binding and the LUN backing file and drop the
exposed flag. -/
def unexpose (s : UsbState) : Bool × UsbState × List UEv :=
  if !s.exposed then (true, s, [])
  else
    (true, { s with
              exposed := false
              udcAttr := if s.configfs then "" else s.udcAttr
              lunFile := if s.configfs then "" else s.lunFile }, [])

/-- refresh of the source: unexpose, prepare, re-expose; on a failed
prepare, best-effort re-expose of the stale contents and failure. -/
def refresh (s : UsbState) (files : List (String × String)) :
    Bool × UsbState × List UEv :=
  let u := unexpose s
  if !u.1 then (false, u.2.1, u.2.2)
  else
    let p := prepareImage u.2.1 files
    if !p.1 then
      let e := expose p.2.1
      (false, e.2.1, u.2.2 ++ p.2.2 ++ e.2.2)
    else
      let e := expose p.2.1
      if !e.1 then (false, e.2.1, u.2.2 ++ p.2.2 ++ e.2.2)
      else (true, e.2.1, u.2.2 ++ p.2.2 ++ e.2.2)

/-- teardownConfigfs of the source: disable the UDC, remove the skeleton
in reverse order, clear the exposed and initialized flags. -/
def teardownConfigfs (s : UsbState) : Bool × UsbState × List UEv :=
  if !s.configfs then (true, s, [])
  else
    (true, { s with
              configfs := false
              exposed := false
              inited := false
              udcAttr := "" }, [])

/-- cleanup of the source: unexpose, best-effort unmount, teardown. -/
def usbCleanup (s : UsbState) : Bool × UsbState × List UEv :=
  let u := unexpose s
  let m := unmountImage u.2.1
  let t := teardownConfigfs m.2.1
  (true, t.2.1, u.2.2 ++ m.2.2 ++ t.2.2)

/-- One public operation of the orchestrator. -/
inductive UsbOp where
  | init
  | prepare (files : List (String × String))
  | expose
  | unexpose
  | refresh (files : List (String × String))
  | cleanup

/-- Whether the operation is a direct prepareImage call. -/
def UsbOp.isPrepare : UsbOp → Bool
  | .prepare _ => true
  | _ => false

/-- Dispatch one public operation, returning its result, the new state
and the observed platform calls. -/
def usbStep (s : UsbState) : UsbOp → Bool × UsbState × List UEv
  | .init => let r := usbInitOp s; (r.1, r.2, [])
  | .prepare files => prepareImage s files
  | .expose => expose s
  | .unexpose => unexpose s
  | .refresh files => refresh s files
  | .cleanup => usbCleanup s

/-- Run a sequence of public operations, accumulating the observed
platform calls in order. -/
def usbRun (s : UsbState) : List UsbOp → UsbState × List UEv
  | [] => (s, [])
  | op :: rest =>
    let r := usbStep s op
    let t := usbRun r.2.1 rest
    (t.1, r.2.2 ++ t.2)


/-! ### EncryptedStorage (EncryptedStorage.cpp)

Bytes are Nat values; the uint8 truncations of the source are explicit
mask operations.  The AES state uint8 array of 16 bytes is a structure
with 16 fields in the column-major layout of the source. -/

/-- AES S-Box table of the source. -/
def SBOX : List Nat :=
  [0x63, 0x7c, 0x77, 0x7b, 0xf2, 0x6b, 0x6f, 0xc5, 0x30, 0x01, 0x67, 0x2b, 0xfe, 0xd7, 0xab, 0x76,
   0xca, 0x82, 0xc9, 0x7d, 0xfa, 0x59, 0x47, 0xf0, 0xad, 0xd4, 0xa2, 0xaf, 0x9c, 0xa4, 0x72, 0xc0,
   0xb7, 0xfd, 0x93, 0x26, 0x36, 0x3f, 0xf7, 0xcc, 0x34, 0xa5, 0xe5, 0xf1, 0x71, 0xd8, 0x31, 0x15,
   0x04, 0xc7, 0x23, 0xc3, 0x18, 0x96, 0x05, 0x9a, 0x07, 0x12, 0x80, 0xe2, 0xeb, 0x27, 0xb2, 0x75,
   0x09, 0x83, 0x2c, 0x1a, 0x1b, 0x6e, 0x5a, 0xa0, 0x52, 0x3b, 0xd6, 0xb3, 0x29, 0xe3, 0x2f, 0x84,
   0x53, 0xd1, 0x00, 0xed, 0x20, 0xfc, 0xb1, 0x5b, 0x6a, 0xcb, 0xbe, 0x39, 0x4a, 0x4c, 0x58, 0xcf,
   0xd0, 0xef, 0xaa, 0xfb, 0x43, 0x4d, 0x33, 0x85, 0x45, 0xf9, 0x02, 0x7f, 0x50, 0x3c, 0x9f, 0xa8,
   0x51, 0xa3, 0x40, 0x8f, 0x92, 0x9d, 0x38, 0xf5, 0xbc, 0xb6, 0xda, 0x21, 0x10, 0xff, 0xf3, 0xd2,
   0xcd, 0x0c, 0x13, 0xec, 0x5f, 0x97, 0x44, 0x17, 0xc4, 0xa7, 0x7e, 0x3d, 0x64, 0x5d, 0x19, 0x73,
   0x60, 0x81, 0x4f, 0xdc, 0x22, 0x2a, 0x90, 0x88, 0x46, 0xee, 0xb8, 0x14, 0xde, 0x5e, 0x0b, 0xdb,
   0xe0, 0x32, 0x3a, 0x0a, 0x49, 0x06, 0x24, 0x5c, 0xc2, 0xd3, 0xac, 0x62, 0x91, 0x95, 0xe4, 0x79,
   0xe7, 0xc8, 0x37, 0x6d, 0x8d, 0xd5, 0x4e, 0xa9, 0x6c, 0x56, 0xf4, 0xea, 0x65, 0x7a, 0xae, 0x08,
   0xba, 0x78, 0x25, 0x2e, 0x1c, 0xa6, 0xb4, 0xc6, 0xe8, 0xdd, 0x74, 0x1f, 0x4b, 0xbd, 0x8b, 0x8a,
   0x70, 0x3e, 0xb5, 0x66, 0x48, 0x03, 0xf6, 0x0e, 0x61, 0x35, 0x57, 0xb9, 0x86, 0xc1, 0x1d, 0x9e,
   0xe1, 0xf8, 0x98, 0x11, 0x69, 0xd9, 0x8e, 0x94, 0x9b, 0x1e, 0x87, 0xe9, 0xce, 0x55, 0x28, 0xdf,
   0x8c, 0xa1, 0x89, 0x0d, 0xbf, 0xe6, 0x42, 0x68, 0x41, 0x99, 0x2d, 0x0f, 0xb0, 0x54, 0xbb, 0x16]

/-- Inverse S-Box table of the source. -/
def INV_SBOX : List Nat :=
  [0x52, 0x09, 0x6a, 0xd5, 0x30, 0x36, 0xa5, 0x38, 0xbf, 0x40, 0xa3, 0x9e, 0x81, 0xf3, 0xd7, 0xfb,
   0x7c, 0xe3, 0x39, 0x82, 0x9b, 0x2f, 0xff, 0x87, 0x34, 0x8e, 0x43, 0x44, 0xc4, 0xde, 0xe9, 0xcb,
   0x54, 0x7b, 0x94, 0x32, 0xa6, 0xc2, 0x23, 0x3d, 0xee, 0x4c, 0x95, 0x0b, 0x42, 0xfa, 0xc3, 0x4e,
   0x08, 0x2e, 0xa1, 0x66, 0x28, 0xd9, 0x24, 0xb2, 0x76, 0x5b, 0xa2, 0x49, 0x6d, 0x8b, 0xd1, 0x25,
   0x72, 0xf8, 0xf6, 0x64, 0x86, 0x68, 0x98, 0x16, 0xd4, 0xa4, 0x5c, 0xcc, 0x5d, 0x65, 0xb6, 0x92,
   0x6c, 0x70, 0x48, 0x50, 0xfd, 0xed, 0xb9, 0xda, 0x5e, 0x15, 0x46, 0x57, 0xa7, 0x8d, 0x9d, 0x84,
   0x90, 0xd8, 0xab, 0x00, 0x8c, 0xbc, 0xd3, 0x0a, 0xf7, 0xe4, 0x58, 0x05, 0xb8, 0xb3, 0x45, 0x06,
   0xd0, 0x2c, 0x1e, 0x8f, 0xca, 0x3f, 0x0f, 0x02, 0xc1, 0xaf, 0xbd, 0x03, 0x01, 0x13, 0x8a, 0x6b,
   0x3a, 0x91, 0x11, 0x41, 0x4f, 0x67, 0xdc, 0xea, 0x97, 0xf2, 0xcf, 0xce, 0xf0, 0xb4, 0xe6, 0x73,
   0x96, 0xac, 0x74, 0x22, 0xe7, 0xad, 0x35, 0x85, 0xe2, 0xf9, 0x37, 0xe8, 0x1c, 0x75, 0xdf, 0x6e,
   0x47, 0xf1, 0x1a, 0x71, 0x1d, 0x29, 0xc5, 0x89, 0x6f, 0xb7, 0x62, 0x0e, 0xaa, 0x18, 0xbe, 0x1b,
   0xfc, 0x56, 0x3e, 0x4b, 0xc6, 0xd2, 0x79, 0x20, 0x9a, 0xdb, 0xc0, 0xfe, 0x78, 0xcd, 0x5a, 0xf4,
   0x1f, 0xdd, 0xa8, 0x33, 0x88, 0x07, 0xc7, 0x31, 0xb1, 0x12, 0x10, 0x59, 0x27, 0x80, 0xec, 0x5f,
   0x60, 0x51, 0x7f, 0xa9, 0x19, 0xb5, 0x4a, 0x0d, 0x2d, 0xe5, 0x7a, 0x9f, 0x93, 0xc9, 0x9c, 0xef,
   0xa0, 0xe0, 0x3b, 0x4d, 0xae, 0x2a, 0xf5, 0xb0, 0xc8, 0xeb, 0xbb, 0x3c, 0x83, 0x53, 0x99, 0x61,
   0x17, 0x2b, 0x04, 0x7e, 0xba, 0x77, 0xd6, 0x26, 0xe1, 0x69, 0x14, 0x63, 0x55, 0x21, 0x0c, 0x7d]
/-- RCON table of the source. -/
def RCON : List Nat := [0x00, 0x01, 0x02, 0x04, 0x08, 0x10, 0x20, 0x40, 0x80, 0x1b, 0x36]

/-- S-box lookup of a byte. -/
def sbox (b : Nat) : Nat := SBOX.getD b 0

/-- Inverse S-box lookup of a byte. -/
def invSbox (b : Nat) : Nat := INV_SBOX.getD b 0

/-- One doubling step in GF(2 pow 8) as performed inside the loop of
gmul: shift left, truncate to a byte, and reduce by 0x1b when the high
bit was set. -/
def xtime (a : Nat) : Nat :=
  if a &&& 128 = 0 then (a <<< 1) &&& 255 else ((a <<< 1) &&& 255) ^^^ 27

/-- The 8-iteration loop of gmul: p accumulates a whenever the low bit
of b is set, a doubles, b shifts right. -/
def gmulAux : Nat → Nat → Nat → Nat → Nat
  | 0, _, _, p => p
  | n + 1, a, b, p =>
    gmulAux n (xtime a) (b >>> 1) (if b &&& 1 = 0 then p else p ^^^ a)

/-- gmul of the source: multiplication in GF(2 pow 8) under 0x11b. -/
def gmul (a b : Nat) : Nat := gmulAux 8 a b 0

/-- The uint8 state array of 16 bytes, fields in source index order
(column-major: column c occupies indices 4c..4c+3). -/
structure B16 where
  s0 : Nat
  s1 : Nat
  s2 : Nat
  s3 : Nat
  s4 : Nat
  s5 : Nat
  s6 : Nat
  s7 : Nat
  s8 : Nat
  s9 : Nat
  s10 : Nat
  s11 : Nat
  s12 : Nat
  s13 : Nat
  s14 : Nat
  s15 : Nat
deriving DecidableEq

/-- subBytes of the source. -/
def subBytes (st : B16) : B16 :=
  ⟨sbox st.s0, sbox st.s1, sbox st.s2, sbox st.s3, sbox st.s4, sbox st.s5,
   sbox st.s6, sbox st.s7, sbox st.s8, sbox st.s9, sbox st.s10, sbox st.s11,
   sbox st.s12, sbox st.s13, sbox st.s14, sbox st.s15⟩

/-- invSubBytes of the source. -/
def invSubBytes (st : B16) : B16 :=
  ⟨invSbox st.s0, invSbox st.s1, invSbox st.s2, invSbox st.s3, invSbox st.s4,
   invSbox st.s5, invSbox st.s6, invSbox st.s7, invSbox st.s8, invSbox st.s9,
   invSbox st.s10, invSbox st.s11, invSbox st.s12, invSbox st.s13,
   invSbox st.s14, invSbox st.s15⟩

/-- shiftRows of the source: rows 1..3 rotate left by 1..3 within the
column-major layout. -/
def shiftRows (st : B16) : B16 :=
  ⟨st.s0, st.s5, st.s10, st.s15, st.s4, st.s9, st.s14, st.s3,
   st.s8, st.s13, st.s2, st.s7, st.s12, st.s1, st.s6, st.s11⟩

/-- invShiftRows of the source: rows 1..3 rotate right by 1..3. -/
def invShiftRows (st : B16) : B16 :=
  ⟨st.s0, st.s13, st.s10, st.s7, st.s4, st.s1, st.s14, st.s11,
   st.s8, st.s5, st.s2, st.s15, st.s12, st.s9, st.s6, st.s3⟩

/-- One column of mixColumns, in source evaluation order. -/
def mixCol (a0 a1 a2 a3 : Nat) : Nat × Nat × Nat × Nat :=
  (gmul a0 2 ^^^ gmul a1 3 ^^^ a2 ^^^ a3,
   a0 ^^^ gmul a1 2 ^^^ gmul a2 3 ^^^ a3,
   a0 ^^^ a1 ^^^ gmul a2 2 ^^^ gmul a3 3,
   gmul a0 3 ^^^ a1 ^^^ a2 ^^^ gmul a3 2)

/-- One column of invMixColumns. -/
def invMixCol (a0 a1 a2 a3 : Nat) : Nat × Nat × Nat × Nat :=
  (gmul a0 14 ^^^ gmul a1 11 ^^^ gmul a2 13 ^^^ gmul a3 9,
   gmul a0 9 ^^^ gmul a1 14 ^^^ gmul a2 11 ^^^ gmul a3 13,
   gmul a0 13 ^^^ gmul a1 9 ^^^ gmul a2 14 ^^^ gmul a3 11,
   gmul a0 11 ^^^ gmul a1 13 ^^^ gmul a2 9 ^^^ gmul a3 14)

/-- mixColumns of the source, column by column. -/
def mixColumns (st : B16) : B16 :=
  let c0 := mixCol st.s0 st.s1 st.s2 st.s3
  let c1 := mixCol st.s4 st.s5 st.s6 st.s7
  let c2 := mixCol st.s8 st.s9 st.s10 st.s11
  let c3 := mixCol st.s12 st.s13 st.s14 st.s15
  ⟨c0.1, c0.2.1, c0.2.2.1, c0.2.2.2, c1.1, c1.2.1, c1.2.2.1, c1.2.2.2,
   c2.1, c2.2.1, c2.2.2.1, c2.2.2.2, c3.1, c3.2.1, c3.2.2.1, c3.2.2.2⟩

/-- invMixColumns of the source, column by column. -/
def invMixColumns (st : B16) : B16 :=
  let c0 := invMixCol st.s0 st.s1 st.s2 st.s3
  let c1 := invMixCol st.s4 st.s5 st.s6 st.s7
  let c2 := invMixCol st.s8 st.s9 st.s10 st.s11
  let c3 := invMixCol st.s12 st.s13 st.s14 st.s15
  ⟨c0.1, c0.2.1, c0.2.2.1, c0.2.2.2, c1.1, c1.2.1, c1.2.2.1, c1.2.2.2,
   c2.1, c2.2.1, c2.2.2.1, c2.2.2.2, c3.1, c3.2.1, c3.2.2.1, c3.2.2.2⟩

/-- One 4-word round key, as passed to addRoundKey. -/
structure RK where
  w0 : Nat
  w1 : Nat
  w2 : Nat
  w3 : Nat
deriving DecidableEq

/-- Byte r of a round-key word, as the uint8 casts of addRoundKey. -/
def kb (w r : Nat) : Nat := (w >>> (24 - 8 * r)) &&& 255

/-- addRoundKey of the source: xor round-key bytes column-wise. -/
def addRoundKey (st : B16) (k : RK) : B16 :=
  ⟨st.s0 ^^^ kb k.w0 0, st.s1 ^^^ kb k.w0 1, st.s2 ^^^ kb k.w0 2, st.s3 ^^^ kb k.w0 3,
   st.s4 ^^^ kb k.w1 0, st.s5 ^^^ kb k.w1 1, st.s6 ^^^ kb k.w1 2, st.s7 ^^^ kb k.w1 3,
   st.s8 ^^^ kb k.w2 0, st.s9 ^^^ kb k.w2 1, st.s10 ^^^ kb k.w2 2, st.s11 ^^^ kb k.w2 3,
   st.s12 ^^^ kb k.w3 0, st.s13 ^^^ kb k.w3 1, st.s14 ^^^ kb k.w3 2, st.s15 ^^^ kb k.w3 3⟩

/-- Big-endian packing of four key bytes into word i of the schedule. -/
def keyWord (key : List Nat) (i : Nat) : Nat :=
  (key.getD (4 * i) 0) <<< 24 ||| (key.getD (4 * i + 1) 0) <<< 16 |||
  (key.getD (4 * i + 2) 0) <<< 8 ||| key.getD (4 * i + 3) 0

/-- One iteration of the expansion loop of aesKeyExpansion, appending
word i where i is the current length of the schedule. -/
def kexStep (ws : List Nat) : List Nat :=
  let i := ws.length
  let t0 := ws.getD (i - 1) 0
  let t :=
    if i % 8 = 0 then
      ((sbox ((t0 >>> 16) &&& 255)) <<< 24 ||| (sbox ((t0 >>> 8) &&& 255)) <<< 16 |||
       (sbox (t0 &&& 255)) <<< 8 ||| sbox ((t0 >>> 24) &&& 255)) ^^^
      ((RCON.getD (i / 8) 0) <<< 24)
    else if i % 8 = 4 then
      (sbox ((t0 >>> 24) &&& 255)) <<< 24 ||| (sbox ((t0 >>> 16) &&& 255)) <<< 16 |||
      (sbox ((t0 >>> 8) &&& 255)) <<< 8 ||| sbox (t0 &&& 255)
    else t0
  ws ++ [ws.getD (i - 8) 0 ^^^ t]

/-- Iterate the expansion step. -/
def kexTimes : Nat → List Nat → List Nat
  | 0, ws => ws
  | n + 1, ws => kexTimes n (kexStep ws)

/-- aesKeyExpansion of the source: 8 initial words from the key bytes,
then 52 expansion iterations to 60 round-key words. -/
def aesKeyExpansion (key : List Nat) : List Nat :=
  kexTimes 52 ((List.range 8).map (keyWord key))

/-- Round key r: words 4r..4r+3 of the schedule. -/
def rk (ws : List Nat) (r : Nat) : RK :=
  ⟨ws.getD (4 * r) 0, ws.getD (4 * r + 1) 0, ws.getD (4 * r + 2) 0, ws.getD (4 * r + 3) 0⟩

/-- One middle round of aesEncryptBlock. -/
def encRound (st : B16) (k : RK) : B16 :=
  addRoundKey (mixColumns (shiftRows (subBytes st))) k

/-- One middle round of aesDecryptBlock. -/
def decRound (st : B16) (k : RK) : B16 :=
  invMixColumns (addRoundKey (invSubBytes (invShiftRows st)) k)

/-- aesEncryptBlock of the source: initial addRoundKey, 13 middle
rounds, final round without mixColumns. -/
def aesEncryptBlock (ws : List Nat) (input : B16) : B16 :=
  let st := addRoundKey input (rk ws 0)
  let st := (((List.range 13).map (fun i => rk ws (i + 1))).foldl encRound st)
  addRoundKey (shiftRows (subBytes st)) (rk ws 14)

/-- aesDecryptBlock of the source: addRoundKey with the last round key,
13 inverse rounds from round 13 down to 1, final inverse round. -/
def aesDecryptBlock (ws : List Nat) (input : B16) : B16 :=
  let st := addRoundKey input (rk ws 14)
  let st := (((List.range 13).map (fun i => rk ws (13 - i))).foldl decRound st)
  addRoundKey (invSubBytes (invShiftRows st)) (rk ws 0)

/-- Byte-wise xor of two blocks, as the chaining xor loops of the
source. -/
def xorB (x y : B16) : B16 :=
  ⟨x.s0 ^^^ y.s0, x.s1 ^^^ y.s1, x.s2 ^^^ y.s2, x.s3 ^^^ y.s3,
   x.s4 ^^^ y.s4, x.s5 ^^^ y.s5, x.s6 ^^^ y.s6, x.s7 ^^^ y.s7,
   x.s8 ^^^ y.s8, x.s9 ^^^ y.s9, x.s10 ^^^ y.s10, x.s11 ^^^ y.s11,
   x.s12 ^^^ y.s12, x.s13 ^^^ y.s13, x.s14 ^^^ y.s14, x.s15 ^^^ y.s15⟩

/-- Pack the first 16 entries of a list into a block. -/
def toB16 (l : List Nat) : B16 :=
  ⟨l.getD 0 0, l.getD 1 0, l.getD 2 0, l.getD 3 0, l.getD 4 0, l.getD 5 0,
   l.getD 6 0, l.getD 7 0, l.getD 8 0, l.getD 9 0, l.getD 10 0, l.getD 11 0,
   l.getD 12 0, l.getD 13 0, l.getD 14 0, l.getD 15 0⟩

/-- Serialize a block back to 16 bytes. -/
def fromB16 (b : B16) : List Nat :=
  [b.s0, b.s1, b.s2, b.s3, b.s4, b.s5, b.s6, b.s7,
   b.s8, b.s9, b.s10, b.s11, b.s12, b.s13, b.s14, b.s15]

/-- Split a byte list into 16-byte blocks, as the 16-stride loops of
encrypt and decrypt.  On input whose length is not a multiple of 16 the
final partial block is completed with zeros; at that point the source
performs an out-of-bounds read (see the C4 analysis). -/
def toBlocks (l : List Nat) : List B16 :=
  if h : l = [] then [] else toB16 (l.take 16) :: toBlocks (l.drop 16)
termination_by l.length
decreasing_by
  have hl := List.length_pos.mpr h
  simp only [List.length_drop]
  omega

/-- Concatenate blocks back to bytes. -/
def fromBlocks (bs : List B16) : List Nat := (bs.map fromB16).flatten

/-- The CBC encryption loop of encrypt: xor with the previous ciphertext
block (initially the IV), encrypt, chain. -/
def cbcEncryptBlocks (ws : List Nat) (prev : B16) : List B16 → List B16
  | [] => []
  | b :: rest =>
    let e := aesEncryptBlock ws (xorB b prev)
    e :: cbcEncryptBlocks ws e rest

/-- The CBC decryption loop of decrypt: decrypt, xor with the previous
ciphertext block (initially the IV), chain on the ciphertext block. -/
def cbcDecryptBlocks (ws : List Nat) (prev : B16) : List B16 → List B16
  | [] => []
  | c :: rest => xorB (aesDecryptBlock ws c) prev :: cbcDecryptBlocks ws c rest

/-- pkcs7Pad of the source: always append padLen copies of padLen, with
padLen = 16 minus the length modulo 16. -/
def pkcs7Pad (data : List Nat) : List Nat :=
  let padLen := 16 - data.length % 16
  data ++ List.replicate padLen padLen

/-- pkcs7Unpad of the source: empty input is returned unchanged; a pad
byte of 0, above 16, or above the length is rejected, as is any of the
last padLen bytes differing from padLen; rejection returns the empty
list, otherwise the padding is stripped. -/
def pkcs7Unpad (data : List Nat) : List Nat :=
  if data = [] then data
  else
    let padLen := data.getLastD 0
    if padLen = 0 ∨ padLen > 16 ∨ padLen > data.length then []
    else if (data.drop (data.length - padLen)).all (fun x => x == padLen) then
      data.take (data.length - padLen)
    else []

/-- The constructor of EncryptedStorage: copy at most 32 key bytes and
zero-fill the remainder. -/
def keyBytes (key : List Nat) : List Nat :=
  key.take 32 ++ List.replicate (32 - key.length) 0

/-- encrypt of the source, with the randomly generated IV supplied as an
explicit parameter: pad, CBC-chain from the IV, prepend the IV. -/
def encrypt (key iv plaintext : List Nat) : List Nat :=
  let ws := aesKeyExpansion (keyBytes key)
  iv ++ fromBlocks (cbcEncryptBlocks ws (toB16 iv) (toBlocks (pkcs7Pad plaintext)))

/-- decrypt of the source: inputs shorter than 32 bytes are rejected;
otherwise extract the IV, CBC-decrypt the 16-byte blocks starting at
offset 16, and strip the padding.  The source checks no block alignment;
see decryptLoopReads for the offsets its loop reads. -/
def decrypt (key ciphertext : List Nat) : List Nat :=
  if ciphertext.length < 32 then []
  else
    let ws := aesKeyExpansion (keyBytes key)
    let iv := toB16 (ciphertext.take 16)
    pkcs7Unpad (fromBlocks (cbcDecryptBlocks ws iv (toBlocks (ciphertext.drop 16))))

/-- Start offsets of the 16-byte reads performed by the block loop of
decrypt (for i = 16; i < n; i += 16, memcpy of 16 bytes at offset i) on
an input of n bytes. -/
def loopStarts (i n : Nat) : List Nat :=
  if i < n then i :: loopStarts (i + 16) n else []
termination_by n - i

/-- All read-start offsets of the decrypt block loop. -/
def decryptLoopReads (n : Nat) : List Nat := loopStarts 16 n

/-- All sixteen state bytes are below 256 (the uint8 range of the
source). -/
def okB (st : B16) : Prop :=
  st.s0 < 256 ∧ st.s1 < 256 ∧ st.s2 < 256 ∧ st.s3 < 256 ∧
  st.s4 < 256 ∧ st.s5 < 256 ∧ st.s6 < 256 ∧ st.s7 < 256 ∧
  st.s8 < 256 ∧ st.s9 < 256 ∧ st.s10 < 256 ∧ st.s11 < 256 ∧
  st.s12 < 256 ∧ st.s13 < 256 ∧ st.s14 < 256 ∧ st.s15 < 256

/-- invMixCol on a packed column 4-tuple. -/
def invMixCol4 (q : Nat × Nat × Nat × Nat) : Nat × Nat × Nat × Nat :=
  invMixCol q.1 q.2.1 q.2.2.1 q.2.2.2

/-- Componentwise xor of column 4-tuples. -/
def xor4 (p q : Nat × Nat × Nat × Nat) : Nat × Nat × Nat × Nat :=
  (p.1 ^^^ q.1, p.2.1 ^^^ q.2.1, p.2.2.1 ^^^ q.2.2.1, p.2.2.2 ^^^ q.2.2.2)

/-! ## Part 2: theorems -/

/-! ### SHA-256 chunking (C8) -/

/-- Updating with two pieces equals updating with their concatenation:
sha256Update is a byte fold. -/
theorem sha256Update_append (ctx : Sha256Ctx) (a b : List Nat) :
    sha256Update ctx (a ++ b) = sha256Update (sha256Update ctx a) b := by
  simp [sha256Update]

/-- Folding update over a chunk list equals one update on the
concatenation. -/
theorem foldl_sha256Update (chunks : List (List Nat)) :
    ∀ ctx : Sha256Ctx, chunks.foldl sha256Update ctx = sha256Update ctx chunks.flatten := by
  induction chunks with
  | nil => intro ctx; simp [sha256Update]
  | cons c rest ih =>
    intro ctx
    simp only [List.foldl_cons, List.flatten_cons]
    rw [ih, sha256Update_append]

/-- Chunking with sufficient fuel and re-flattening is the identity
when the chunk size is positive. -/
theorem flatten_chunksOfAux {n : Nat} (hn : 0 < n) :
    ∀ (fuel : Nat) (l : List Nat), l.length ≤ fuel →
      (chunksOfAux fuel n l).flatten = l := by
  intro fuel
  induction fuel with
  | zero =>
    intro l hl
    have hnil : l = [] := List.eq_nil_of_length_eq_zero (by omega)
    subst hnil
    rfl
  | succ m ih =>
    intro l hl
    rw [chunksOfAux]
    by_cases h : l = []
    · simp [h]
    · rw [if_neg h, if_neg (Nat.pos_iff_ne_zero.mp hn)]
      have hpos := List.length_pos.mpr h
      rw [List.flatten_cons, ih (l.drop n) (by simp only [List.length_drop]; omega),
        List.take_append_drop]

/-- Chunking and re-flattening is the identity when the chunk size is
positive. -/
theorem flatten_chunksOf {n : Nat} (hn : 0 < n) (l : List Nat) :
    (chunksOf n l).flatten = l :=
  flatten_chunksOfAux hn l.length l le_rfl

/-- Claim C8: the SHA-256 digest of a stream is independent of the
chunking used to feed it — feeding any chunk partition through
update/finalize gives the digest of the concatenation, and in particular
hashFile (which streams 8192-byte chunks) agrees with the one-shot
hashString on the same contents. -/
theorem sha256_chunking_independent :
    (∀ chunks : List (List Nat),
       sha256Final (chunks.foldl sha256Update sha256Init) =
       sha256Final (sha256Update sha256Init chunks.flatten)) ∧
    (∀ contents : List Nat, hashFile contents = hashString contents) := by
  constructor
  · intro chunks
    rw [foldl_sha256Update]
  · intro contents
    unfold hashFile hashString
    rw [foldl_sha256Update, flatten_chunksOf (by omega)]

/-! ### retryWithBackoff (C9) -/

/-- When every attempt from index a up to maxRetries fails, the loop
performs the remaining attempts, sleeps after every attempt but the
last, and returns false. -/
theorem retryAux_all_fail (f : Nat → Bool) (r b : Nat) :
    ∀ k a, a + k = r → (∀ j, a ≤ j → j < r → f j = false) →
    retryAux f r b a = (false, k, (List.range' a (k - 1)).map (fun i => b * 2 ^ i)) := by
  intro k
  induction k with
  | zero =>
    intro a ha hf
    rw [retryAux]
    simp [show ¬ a < r by omega]
  | succ m ih =>
    intro a ha hf
    rw [retryAux]
    rw [dif_pos (by omega)]
    rw [hf a (by omega) (by omega)]
    simp only [Bool.false_eq_true, if_false]
    rw [ih (a + 1) (by omega) (fun j h1 h2 => hf j (by omega) h2)]
    by_cases hm : m = 0
    · subst hm
      simp [show ¬ a < r - 1 by omega]
    · rw [if_pos (by omega)]
      have hr : List.range' a (m + 1 - 1) = a :: List.range' (a + 1) (m - 1) := by
        have h1 : m + 1 - 1 = (m - 1) + 1 := by omega
        rw [h1, List.range'_succ]
      rw [hr]
      simp

/-- When attempt i0 is the first success, the loop stops right after it:
i0 + 1 - a invocations from attempt a, one sleep after each failed
attempt. -/
theorem retryAux_first_success (f : Nat → Bool) (r b : Nat) :
    ∀ k a i0, i0 - a = k → a ≤ i0 → i0 < r → f i0 = true →
    (∀ j, a ≤ j → j < i0 → f j = false) →
    retryAux f r b a = (true, i0 + 1 - a, (List.range' a (i0 - a)).map (fun i => b * 2 ^ i)) := by
  intro k
  induction k with
  | zero =>
    intro a i0 hk ha hi0 hf hprev
    have : a = i0 := by omega
    subst this
    rw [retryAux, dif_pos (by omega), hf]
    simp
  | succ m ih =>
    intro a i0 hk ha hi0 hf hprev
    rw [retryAux, dif_pos (by omega)]
    rw [hprev a (by omega) (by omega)]
    simp only [Bool.false_eq_true, if_false]
    rw [ih (a + 1) i0 (by omega) (by omega) hi0 hf (fun j h1 h2 => hprev j (by omega) h2)]
    rw [if_pos (by omega)]
    have hr : List.range' a (i0 - a) = a :: List.range' (a + 1) (i0 - (a + 1)) := by
      have h1 : i0 - a = (i0 - (a + 1)) + 1 := by omega
      rw [h1, List.range'_succ]
    rw [hr]
    simp only [List.map_cons]
    have hn : i0 + 1 - (a + 1) + 1 = i0 + 1 - a := by omega
    rw [hn]

/-- The loop never performs more invocations than remaining attempts. -/
theorem retryAux_le (f : Nat → Bool) (r b : Nat) :
    ∀ k a, r - a ≤ k → (retryAux f r b a).2.1 ≤ r - a := by
  intro k
  induction k with
  | zero =>
    intro a hk
    rw [retryAux, dif_neg (by omega)]
    simp
  | succ m ih =>
    intro a hk
    rw [retryAux]
    by_cases h : a < r
    · rw [dif_pos h]
      by_cases hf : f a = true
      · rw [if_pos hf]
        simp
        omega
      · rw [if_neg hf]
        have h2 := ih (a + 1) (by omega)
        dsimp only
        omega
    · rw [dif_neg h]
      simp

/-- Claim C9: with maxRetries r at least 1 and base backoff b,
retryWithBackoff invokes the operation at most r times; if the first
success is invocation i0 (0-based) it returns true after exactly i0 + 1
invocations with sleeps b, 2b, ..., b times 2 pow (i0 - 1) between
consecutive attempts; if all r invocations fail it returns false after
exactly r invocations, sleeping after every attempt but the last. -/
theorem retry_with_backoff_spec (f : Nat → Bool) (r b : Nat) (hr : 1 ≤ r) :
    (retryWithBackoff f r b).2.1 ≤ r ∧
    (∀ i0, i0 < r → f i0 = true → (∀ j, j < i0 → f j = false) →
      retryWithBackoff f r b =
        (true, i0 + 1, (List.range i0).map (fun i => b * 2 ^ i))) ∧
    ((∀ i, i < r → f i = false) →
      retryWithBackoff f r b =
        (false, r, (List.range (r - 1)).map (fun i => b * 2 ^ i))) := by
  refine ⟨?_, ?_, ?_⟩
  · have := retryAux_le f r b r 0 (by omega)
    simpa [retryWithBackoff] using this
  · intro i0 hi0 hf hprev
    have := retryAux_first_success f r b i0 0 i0 (by omega) (by omega) hi0 hf
      (fun j _ h2 => hprev j h2)
    simpa [retryWithBackoff, List.range_eq_range'] using this
  · intro hall
    have := retryAux_all_fail f r b r 0 (by omega) (fun j _ h2 => hall j h2)
    simpa [retryWithBackoff, List.range_eq_range'] using this

/-- Witness for C9 at the concrete scenario of the spec: base backoff 10
ms, three retries, success on the third invocation — true, three
invocations, sleeps 10 and 20 ms. -/
theorem retry_with_backoff_spec_witness :
    retryWithBackoff (fun i => i == 2) 3 10 = (true, 3, [10, 20]) := by
  have h := (retry_with_backoff_spec (fun i => i == 2) 3 10 (by omega)).2.1 2
    (by omega) (by decide) (by decide)
  simpa using h

/-! ### transferWithOffset accounting (C10) -/

/-- The chunk loop copies exactly the remaining bytes when the chunk
size is positive. -/
theorem copyChunks_eq_length {c : Nat} (hc : 0 < c) (l : List Nat) :
    copyChunks c l = l.length := by
  generalize hk : l.length = k
  induction k using Nat.strong_induction_on generalizing l with
  | _ k ih =>
    rw [copyChunks]
    by_cases h : l = []
    · rw [dif_pos h]
      subst h
      simp at hk
      omega
    · rw [dif_neg h, dif_neg (Nat.pos_iff_ne_zero.mp hc)]
      have hpos := List.length_pos.mpr h
      have hlen : (l.drop c).length < k := by
        simp only [List.length_drop]
        omega
      rw [ih (l.drop c).length (hk ▸ hlen) (l.drop c) rfl]
      simp only [List.length_drop]
      omega

/-- Claim C10: a transfer with offset from an existing source succeeds
and reports offset plus the bytes copied in this call, which is the
cumulative destination total; when the offset reaches or passes the end
of the source, nothing is copied and exactly the offset is reported.
A resume with a recorded byte count behaves as the corresponding
offset transfer and consumes the record. -/
theorem transfer_offset_reports_cumulative
    (fs : String → Option (List Nat)) (cs : Nat) (src dst : String)
    (offset : Nat) (content : List Nat)
    (hsrc : fs src = some content) (hcs : 1 ≤ cs) :
    (transferWithOffset fs cs src dst offset).success = true ∧
    (transferWithOffset fs cs src dst offset).bytesTransferred =
      offset + (content.length - offset) ∧
    (content.length ≤ offset →
      (transferWithOffset fs cs src dst offset).bytesTransferred = offset) ∧
    (∀ (m : List PartTransferInfo) (d0 : String) (bytes : Nat),
      m.find? (fun e => e.srcPath == src) = some ⟨src, d0, bytes⟩ →
      resumeTransfer fs cs m src dst =
        (transferWithOffset fs cs src dst bytes,
         m.filter (fun x => x.srcPath ≠ src))) := by
  have hcopy : ∀ off : Nat, (transferWithOffset fs cs src dst off).bytesTransferred =
      off + (content.length - off) := by
    intro off
    unfold transferWithOffset
    rw [hsrc]
    simp only
    rw [copyChunks_eq_length hcs]
    simp [List.length_drop]
  refine ⟨?_, hcopy offset, ?_, ?_⟩
  · unfold transferWithOffset
    rw [hsrc]
  · intro hle
    rw [hcopy offset]
    omega
  · intro m d0 bytes hfind
    unfold resumeTransfer
    rw [hfind]

/-- Witness for C10: a 5-byte source transferred from offset 2 reports 5
bytes, and from offset 9 (past the end) succeeds reporting 9; the
recorded resume restarts at byte 3. -/
theorem transfer_offset_reports_cumulative_witness :
    (transferWithOffset (fun p => if p = "s" then some [1, 2, 3, 4, 5] else none)
       65536 "s" "d" 2).bytesTransferred = 5 ∧
    (transferWithOffset (fun p => if p = "s" then some [1, 2, 3, 4, 5] else none)
       65536 "s" "d" 9).bytesTransferred = 9 ∧
    resumeTransfer (fun p => if p = "s" then some [1, 2, 3, 4, 5] else none)
       65536 [⟨"s", "d", 3⟩] "s" "d" =
      (transferWithOffset (fun p => if p = "s" then some [1, 2, 3, 4, 5] else none)
         65536 "s" "d" 3, []) := by
  refine ⟨?_, ?_, ?_⟩
  · have h := (transfer_offset_reports_cumulative
      (fun p => if p = "s" then some [1, 2, 3, 4, 5] else none) 65536 "s" "d" 2
      [1, 2, 3, 4, 5] (by simp) (by omega)).2.1
    simpa using h
  · have h := ((transfer_offset_reports_cumulative
      (fun p => if p = "s" then some [1, 2, 3, 4, 5] else none) 65536 "s" "d" 9
      [1, 2, 3, 4, 5] (by simp) (by omega)).2.2).1
    exact h (by simp)
  · have h := ((transfer_offset_reports_cumulative
      (fun p => if p = "s" then some [1, 2, 3, 4, 5] else none) 65536 "s" "d" 0
      [1, 2, 3, 4, 5] (by simp) (by omega)).2.2).2 [⟨"s", "d", 3⟩] "d" 3 (by decide)
    simpa using h

/-! ### decrypt length validation (C4)

The guard of decrypt admits every input of at least 32 bytes, aligned or
not; on a 40-byte input the block loop reads 16 bytes at offsets 16 and
32, and the read at offset 32 covers bytes 32..47 of a 40-byte buffer:
an out-of-bounds read instead of the empty-string rejection required by
the claim. -/

/-- Code-bug evidence for C4: a 40-byte ciphertext passes the only
length guard of decrypt (40 is not below 32) although 40 - 16 is not a
multiple of 16, and the block loop then performs a 16-byte read at
offset 32, past the end of the 40-byte input. -/
theorem decrypt_reads_out_of_bounds :
    ¬ (40 < 32) ∧ (40 - 16) % 16 ≠ 0 ∧ decryptLoopReads 40 = [16, 32] ∧
    (∃ s, s ∈ decryptLoopReads 40 ∧ s + 16 > 40) := by
  refine ⟨by omega, by omega, ?_, ⟨32, ?_, by omega⟩⟩
  · rw [decryptLoopReads, loopStarts, if_pos (by omega), loopStarts, if_pos (by omega),
      loopStarts, if_neg (by omega)]
  · rw [decryptLoopReads, loopStarts, if_pos (by omega), loopStarts, if_pos (by omega),
      loopStarts, if_neg (by omega)]
    simp

/-! ### Firmware staging state machine (C2, C6) -/

/-- Status lookup of the updated name. -/
theorem setStatus_self (s : FwState) (n : String) (v : FirmwareStatus) :
    (setStatus s n v).statusMap n = some v := by
  simp [setStatus]

/-- Status lookup of a different name. -/
theorem setStatus_other (s : FwState) (m : String) (v : FirmwareStatus) (n : String)
    (h : ¬ n = m) : (setStatus s m v).statusMap n = s.statusMap n := by
  simp [setStatus, h]

/-- setStatus leaves the staging directory unchanged. -/
theorem setStatus_staging (s : FwState) (m : String) (v : FirmwareStatus) :
    (setStatus s m v).staging = s.staging := rfl

/-- The amended trace predicate after one more annotated event. -/
theorem specApplyOk_snoc (n : String) (ann : List (FwOp × Bool)) (op : FwOp) (r : Bool) :
    specApplyOk n (ann ++ [(op, r)]) =
      (match op with
       | .verify m _ => if m = n then r else specApplyOk n ann
       | .receive m _ => if m = n then false else specApplyOk n ann
       | .apply m => if m = n then false else specApplyOk n ann) := by
  unfold specApplyOk
  rw [List.reverse_append]
  cases op <;> simp [lastVerifyTrueNoApplyRev]

/-- One step preserves the run invariant. -/
theorem fwStep_inv (n : String) (s : FwState) (ann : List (FwOp × Bool)) (op : FwOp)
    (h : FwInv n s ann) : FwInv n (fwStep s op).1 (ann ++ [(op, (fwStep s op).2)]) := by
  obtain ⟨h1, h2⟩ := h
  cases op with
  | receive m d =>
    simp only [fwStep, fwReceive]
    by_cases hd : d.isEmpty = true
    · rw [if_pos hd]
      by_cases hm : m = n
      · subst hm
        refine ⟨?_, ?_⟩
        · rw [specApplyOk_snoc]
          simp [setStatus_self]
        · intro hst
          rw [setStatus_self] at hst
          rcases hst with hst | hst | hst <;> simp at hst
      · refine ⟨?_, ?_⟩
        · rw [specApplyOk_snoc]
          rw [setStatus_other s m _ n (fun hh => hm hh.symm)]
          simp only [if_neg hm]
          exact h1
        · rw [setStatus_other s m _ n (fun hh => hm hh.symm), setStatus_staging]
          exact h2
    · rw [if_neg hd]
      by_cases hm : m = n
      · subst hm
        refine ⟨?_, ?_⟩
        · rw [specApplyOk_snoc]
          simp [setStatus, setStatus_self]
        · intro _
          simp [setStatus]
      · have hnm : ¬ n = m := fun hh => hm hh.symm
        have hstat : ({ setStatus s m FirmwareStatus.Received with
            staging := fun x => if x = m then some d else s.staging x } : FwState).statusMap n =
            s.statusMap n := by
          simp [setStatus, hnm]
        refine ⟨?_, ?_⟩
        · rw [specApplyOk_snoc]
          simp only [if_neg hm]
          rw [hstat]
          exact h1
        · intro hst
          rw [hstat] at hst
          have := h2 hst
          simpa [hnm] using this
  | verify m e =>
    simp only [fwStep, fwVerify]
    by_cases hm : m = n
    · subst hm
      cases hstag : s.staging m with
      | none =>
        dsimp only
        refine ⟨?_, ?_⟩
        · rw [specApplyOk_snoc]
          simp only [if_pos rfl]
          constructor
          · intro hv
            exact absurd (h2 (Or.inr (Or.inl hv))) (by simp [hstag])
          · intro hf
            simp at hf
        · exact h2
      | some c =>
        dsimp only
        by_cases hv : verifyFile c e = true
        · rw [if_pos hv]
          refine ⟨?_, ?_⟩
          · rw [specApplyOk_snoc]
            simp [setStatus_self]
          · intro _
            rw [setStatus_staging, hstag]
            simp
        · rw [if_neg hv]
          refine ⟨?_, ?_⟩
          · rw [specApplyOk_snoc]
            simp [setStatus_self]
          · intro hst
            rw [setStatus_self] at hst
            rcases hst with hst | hst | hst <;> simp at hst
    · have hnm : ¬ n = m := fun hh => hm hh.symm
      cases hstag : s.staging m with
      | none =>
        dsimp only
        refine ⟨?_, ?_⟩
        · rw [specApplyOk_snoc]
          simp only [if_neg hm]
          exact h1
        · exact h2
      | some c =>
        dsimp only
        by_cases hv : verifyFile c e = true
        · rw [if_pos hv]
          refine ⟨?_, ?_⟩
          · rw [specApplyOk_snoc]
            simp only [if_neg hm]
            rw [setStatus_other s m _ n hnm]
            exact h1
          · rw [setStatus_other s m _ n hnm, setStatus_staging]
            exact h2
        · rw [if_neg hv]
          refine ⟨?_, ?_⟩
          · rw [specApplyOk_snoc]
            simp only [if_neg hm]
            rw [setStatus_other s m _ n hnm]
            exact h1
          · rw [setStatus_other s m _ n hnm, setStatus_staging]
            exact h2
  | apply m =>
    simp only [fwStep, fwApply]
    by_cases hs : s.statusMap m = some FirmwareStatus.Verified
    · rw [if_pos hs]
      by_cases hm : m = n
      · subst hm
        have hstag := h2 (Or.inr (Or.inl hs))
        cases hstagv : s.staging m with
        | none => exact absurd hstagv hstag
        | some c =>
          dsimp only
          refine ⟨?_, ?_⟩
          · rw [specApplyOk_snoc]
            simp [setStatus, setStatus_self]
          · intro _
            simp only [setStatus]
            rw [hstagv]
            simp
      · have hnm : ¬ n = m := fun hh => hm hh.symm
        cases hstagv : s.staging m with
        | none =>
          dsimp only
          refine ⟨?_, ?_⟩
          · rw [specApplyOk_snoc]
            simp only [if_neg hm]
            rw [setStatus_other s m _ n hnm]
            exact h1
          · rw [setStatus_other s m _ n hnm, setStatus_staging]
            exact h2
        | some c =>
          dsimp only
          refine ⟨?_, ?_⟩
          · rw [specApplyOk_snoc]
            simp only [if_neg hm]
            have : ({ setStatus s m FirmwareStatus.Applied with
                installed := fun x => if x = m then some c else s.installed x } : FwState).statusMap n =
                s.statusMap n := by
              simp [setStatus, hnm]
            rw [this]
            exact h1
          · intro hst
            have hstat : ({ setStatus s m FirmwareStatus.Applied with
                installed := fun x => if x = m then some c else s.installed x } : FwState).statusMap n =
                s.statusMap n := by
              simp [setStatus, hnm]
            rw [hstat] at hst
            exact h2 hst
    · rw [if_neg hs]
      by_cases hm : m = n
      · subst hm
        refine ⟨?_, ?_⟩
        · rw [specApplyOk_snoc]
          simp only [if_pos rfl]
          constructor
          · intro hv
            exact absurd hv hs
          · intro hf
            simp at hf
        · exact h2
      · refine ⟨?_, ?_⟩
        · rw [specApplyOk_snoc]
          simp only [if_neg hm]
          exact h1
        · exact h2

/-- The run invariant holds along every trace. -/
theorem fwRun_inv (n : String) (ops : List FwOp) :
    ∀ (s : FwState) (ann : List (FwOp × Bool)), FwInv n s ann →
      FwInv n (fwRun s ops).1 (ann ++ (fwRun s ops).2) := by
  induction ops with
  | nil =>
    intro s ann h
    simpa [fwRun] using h
  | cons op rest ih =>
    intro s ann h
    have hstep := fwStep_inv n s ann op h
    have := ih (fwStep s op).1 (ann ++ [(op, (fwStep s op).2)]) hstep
    simpa [fwRun, List.append_assoc] using this

/-- The invariant holds at the initial state. -/
theorem fwInv_init (n : String) : FwInv n fwInit [] := by
  constructor
  · simp [fwInit, specApplyOk, lastVerifyTrueNoApplyRev]
  · intro hst
    rcases hst with hst | hst | hst <;> simp [fwInit] at hst

/-- Claim C2, amended: over every operation sequence, a subsequent apply
for a name returns true exactly when the most recent verify for that
name returned true and neither a receive nor an apply for that name
intervened since; and from a Received or Failed record, apply returns
false without any transition (no record moves from Received or Failed
directly to Applied). -/
theorem apply_iff_verified_trace (ops : List FwOp) (n : String) :
    ((fwStep (fwRun fwInit ops).1 (FwOp.apply n)).2 = true ↔
      specApplyOk n (fwRun fwInit ops).2 = true) ∧
    ((getStatus (fwRun fwInit ops).1 n = FirmwareStatus.Received ∨
      getStatus (fwRun fwInit ops).1 n = FirmwareStatus.Failed) →
      fwStep (fwRun fwInit ops).1 (FwOp.apply n) = ((fwRun fwInit ops).1, false)) := by
  have hinv := fwRun_inv n ops fwInit [] (fwInv_init n)
  simp only [List.nil_append] at hinv
  obtain ⟨h1, h2⟩ := hinv
  constructor
  · constructor
    · intro happ
      by_cases hs : (fwRun fwInit ops).1.statusMap n = some FirmwareStatus.Verified
      · exact h1.mp hs
      · simp only [fwStep, fwApply, if_neg hs] at happ
        exact absurd happ Bool.false_ne_true
    · intro hspec
      have hs := h1.mpr hspec
      have hstag := h2 (Or.inr (Or.inl hs))
      simp only [fwStep, fwApply, if_pos hs]
      cases hc : (fwRun fwInit ops).1.staging n with
      | none => exact absurd hc hstag
      | some c => rfl
  · intro hst
    have hs : ¬ (fwRun fwInit ops).1.statusMap n = some FirmwareStatus.Verified := by
      intro hv
      rcases hst with hst | hst <;>
        (rw [getStatus, hv] at hst; simp at hst)
    simp only [fwStep, fwApply, if_neg hs]

/-- Witness for the amended C2 at a concrete trace: after a lone
receive, the record is Received and apply returns false with no
transition. -/
theorem apply_iff_verified_trace_witness :
    (getStatus (fwRun fwInit [FwOp.receive "fw" [5]]).1 "fw" = FirmwareStatus.Received ∨
     getStatus (fwRun fwInit [FwOp.receive "fw" [5]]).1 "fw" = FirmwareStatus.Failed) ∧
    fwStep (fwRun fwInit [FwOp.receive "fw" [5]]).1 (FwOp.apply "fw") =
      ((fwRun fwInit [FwOp.receive "fw" [5]]).1, false) :=
  ⟨Or.inl (by decide),
   (apply_iff_verified_trace [FwOp.receive "fw" [5]] "fw").2 (Or.inl (by decide))⟩

/-- Counterexample to C2 as stated: in the trace receive, verify (hash
matches, true), apply (true), apply, the second apply returns false
although the most recent verify for the name returned true and no
receive intervened — the spec predicate as written does not account for
the intervening successful apply. -/
theorem apply_after_apply_counterexample :
    ((fwRun fwInit [FwOp.receive "fw" [79],
        FwOp.verify "fw" [99, 52, 54, 57, 52, 102, 50, 101, 57, 51, 100, 53, 99, 52, 101, 55, 100, 53, 49, 102, 57, 99, 53, 100, 101, 98, 55, 53, 101, 54, 99, 99, 56, 98, 101, 53, 101, 49, 49, 49, 52, 49, 55, 56, 99, 54, 97, 52, 53, 98, 54, 102, 99, 50, 99, 53, 54, 54, 97, 48, 97, 97, 56, 99],
        FwOp.apply "fw", FwOp.apply "fw"]).2.map (fun e => e.2) =
      [true, true, true, false]) ∧
    claimApplyOk "fw" ((fwRun fwInit [FwOp.receive "fw" [79],
        FwOp.verify "fw" [99, 52, 54, 57, 52, 102, 50, 101, 57, 51, 100, 53, 99, 52, 101, 55, 100, 53, 49, 102, 57, 99, 53, 100, 101, 98, 55, 53, 101, 54, 99, 99, 56, 98, 101, 53, 101, 49, 49, 49, 52, 49, 55, 56, 99, 54, 97, 52, 53, 98, 54, 102, 99, 50, 99, 53, 54, 54, 97, 48, 97, 97, 56, 99],
        FwOp.apply "fw", FwOp.apply "fw"]).2.take 3) = true := by
  constructor
  · decide
  · decide

/-- Claim C6, amended: verifyIntegrity does not consult the status map.
From a Failed or Applied record, a verify with the staged file absent
returns false leaving everything unchanged, but with the staged file
present it recomputes the hash: it returns true and revives the record
to Verified exactly when the hash matches (only a record without a
staged file needs a fresh receive). -/
theorem verify_ignores_status (ops : List FwOp) (n : String) (e : List Nat)
    (hst : getStatus (fwRun fwInit ops).1 n = FirmwareStatus.Failed ∨
           getStatus (fwRun fwInit ops).1 n = FirmwareStatus.Applied) :
    ((fwRun fwInit ops).1.staging n = none →
      fwStep (fwRun fwInit ops).1 (FwOp.verify n e) = ((fwRun fwInit ops).1, false)) ∧
    (∀ c, (fwRun fwInit ops).1.staging n = some c →
      (fwStep (fwRun fwInit ops).1 (FwOp.verify n e)).2 = verifyFile c e ∧
      getStatus (fwStep (fwRun fwInit ops).1 (FwOp.verify n e)).1 n =
        (if verifyFile c e then FirmwareStatus.Verified else FirmwareStatus.Failed)) := by
  constructor
  · intro hnone
    simp only [fwStep, fwVerify, hnone]
  · intro c hc
    simp only [fwStep, fwVerify, hc]
    by_cases hv : verifyFile c e = true
    · rw [if_pos hv, if_pos hv]
      exact ⟨hv.symm, by simp [getStatus, setStatus_self]⟩
    · rw [if_neg hv, if_neg hv]
      have hfalse : verifyFile c e = false := by
        cases hcv : verifyFile c e
        · rfl
        · exact absurd hcv hv
      exact ⟨hfalse.symm, by simp [getStatus, setStatus_self]⟩

/-- Witness for the amended C6: after receive and a failed verify the
record is Failed with its file staged; a verify with the matching hash
returns the comparison result (true) and sets the status per the
comparison (Verified). -/
theorem verify_ignores_status_witness :
    (getStatus (fwRun fwInit [FwOp.receive "fw" [79], FwOp.verify "fw" []]).1 "fw" =
       FirmwareStatus.Failed ∨
     getStatus (fwRun fwInit [FwOp.receive "fw" [79], FwOp.verify "fw" []]).1 "fw" =
       FirmwareStatus.Applied) ∧
    ((fwStep (fwRun fwInit [FwOp.receive "fw" [79], FwOp.verify "fw" []]).1
        (FwOp.verify "fw" [99, 52, 54, 57, 52, 102, 50, 101, 57, 51, 100, 53, 99, 52, 101, 55, 100, 53, 49, 102, 57, 99, 53, 100, 101, 98, 55, 53, 101, 54, 99, 99, 56, 98, 101, 53, 101, 49, 49, 49, 52, 49, 55, 56, 99, 54, 97, 52, 53, 98, 54, 102, 99, 50, 99, 53, 54, 54, 97, 48, 97, 97, 56, 99])).2 =
      verifyFile [79] [99, 52, 54, 57, 52, 102, 50, 101, 57, 51, 100, 53, 99, 52, 101, 55, 100, 53, 49, 102, 57, 99, 53, 100, 101, 98, 55, 53, 101, 54, 99, 99, 56, 98, 101, 53, 101, 49, 49, 49, 52, 49, 55, 56, 99, 54, 97, 52, 53, 98, 54, 102, 99, 50, 99, 53, 54, 54, 97, 48, 97, 97, 56, 99] ∧
     getStatus (fwStep (fwRun fwInit [FwOp.receive "fw" [79], FwOp.verify "fw" []]).1
        (FwOp.verify "fw" [99, 52, 54, 57, 52, 102, 50, 101, 57, 51, 100, 53, 99, 52, 101, 55, 100, 53, 49, 102, 57, 99, 53, 100, 101, 98, 55, 53, 101, 54, 99, 99, 56, 98, 101, 53, 101, 49, 49, 49, 52, 49, 55, 56, 99, 54, 97, 52, 53, 98, 54, 102, 99, 50, 99, 53, 54, 54, 97, 48, 97, 97, 56, 99])).1 "fw" =
      (if verifyFile [79] [99, 52, 54, 57, 52, 102, 50, 101, 57, 51, 100, 53, 99, 52, 101, 55, 100, 53, 49, 102, 57, 99, 53, 100, 101, 98, 55, 53, 101, 54, 99, 99, 56, 98, 101, 53, 101, 49, 49, 49, 52, 49, 55, 56, 99, 54, 97, 52, 53, 98, 54, 102, 99, 50, 99, 53, 54, 54, 97, 48, 97, 97, 56, 99] then FirmwareStatus.Verified
       else FirmwareStatus.Failed)) :=
  ⟨Or.inl (by decide),
   (verify_ignores_status [FwOp.receive "fw" [79], FwOp.verify "fw" []] "fw"
      [99, 52, 54, 57, 52, 102, 50, 101, 57, 51, 100, 53, 99, 52, 101, 55, 100, 53, 49, 102, 57, 99, 53, 100, 101, 98, 55, 53, 101, 54, 99, 99, 56, 98, 101, 53, 101, 49, 49, 49, 52, 49, 55, 56, 99, 54, 97, 52, 53, 98, 54, 102, 99, 50, 99, 53, 54, 54, 97, 48, 97, 97, 56, 99] (Or.inl (by decide))).2 [79] (by decide)⟩

/-- Counterexample to C6 as stated: receive, verify with a wrong hash
(false, record Failed), then verify with the matching hash returns true
and moves the record from Failed to Verified — not the claimed no-op
returning false. -/
theorem verify_revives_failed_counterexample :
    ((fwRun fwInit [FwOp.receive "fw" [79], FwOp.verify "fw" [],
        FwOp.verify "fw" [99, 52, 54, 57, 52, 102, 50, 101, 57, 51, 100, 53, 99, 52, 101, 55, 100, 53, 49, 102, 57, 99, 53, 100, 101, 98, 55, 53, 101, 54, 99, 99, 56, 98, 101, 53, 101, 49, 49, 49, 52, 49, 55, 56, 99, 54, 97, 52, 53, 98, 54, 102, 99, 50, 99, 53, 54, 54, 97, 48, 97, 97, 56, 99]]).2.map (fun e => e.2) =
      [true, false, true]) ∧
    getStatus (fwRun fwInit [FwOp.receive "fw" [79], FwOp.verify "fw" []]).1 "fw" =
      FirmwareStatus.Failed ∧
    getStatus (fwRun fwInit [FwOp.receive "fw" [79], FwOp.verify "fw" [],
        FwOp.verify "fw" [99, 52, 54, 57, 52, 102, 50, 101, 57, 51, 100, 53, 99, 52, 101, 55, 100, 53, 49, 102, 57, 99, 53, 100, 101, 98, 55, 53, 101, 54, 99, 99, 56, 98, 101, 53, 101, 49, 49, 49, 52, 49, 55, 56, 99, 54, 97, 52, 53, 98, 54, 102, 99, 50, 99, 53, 54, 54, 97, 48, 97, 97, 56, 99]]).1 "fw" = FirmwareStatus.Verified := by
  exact ⟨by decide, by decide, by decide⟩

/-! ### USB orchestrator (C3, C5) -/

/-- unexpose never touches the mount flag, always clears the exposed
flag, emits no events, and succeeds. -/
theorem unexpose_spec (s : UsbState) :
    (unexpose s).1 = true ∧ (unexpose s).2.1.mounted = s.mounted ∧
    (unexpose s).2.1.exposed = false ∧ (unexpose s).2.2 = [] := by
  unfold unexpose
  by_cases h : s.exposed
  · simp [h]
  · simp [h, Bool.eq_false_iff.mpr h]

/-- expose never touches the mount flag and emits no events. -/
theorem expose_spec (s : UsbState) :
    (expose s).2.1.mounted = s.mounted ∧ (expose s).2.2 = [] := by
  unfold expose
  by_cases h : s.configfs
  · simp only [h]
    cases s.udcs <;> simp
  · simp [h]

/-- From an unexposed state, prepareImage leaves the image unmounted at
exit, keeps the gadget unexposed, and every observed call is tagged
unexposed. -/
theorem prepareImage_unexposed (s : UsbState) (files : List (String × String))
    (hexp : s.exposed = false) (hm : s.mounted = false) :
    (prepareImage s files).2.1.mounted = false ∧
    (prepareImage s files).2.1.exposed = false ∧
    ∀ e ∈ (prepareImage s files).2.2, e.exposedAt = false := by
  unfold prepareImage mountImage unmountImage
  by_cases h : s.imageExists
  · simp only [h, if_true, Bool.not_true, Bool.false_eq_true, if_false]
    refine ⟨trivial, hexp, ?_⟩
    intro e he
    simp only [List.mem_append, List.mem_map, List.mem_singleton] at he
    rcases he with (((rfl | ⟨d, hd, rfl⟩) | ⟨f, hf, rfl⟩) | rfl) <;> exact hexp
  · simp only [h, Bool.false_eq_true, if_false, Bool.not_false, if_true]
    refine ⟨hm, hexp, ?_⟩
    intro e he
    simp only [List.mem_singleton] at he
    rw [he]
    exact hexp

/-- A single non-prepare public operation keeps the image unmounted at
operation boundaries and only ever touches the image while unexposed. -/
theorem usbStep_safe (s : UsbState) (op : UsbOp) (hop : op.isPrepare = false)
    (hm : s.mounted = false) :
    (usbStep s op).2.1.mounted = false ∧
    ∀ e ∈ (usbStep s op).2.2, e.exposedAt = false := by
  cases op with
  | init =>
    refine ⟨?_, by simp [usbStep]⟩
    simp only [usbStep, usbInitOp, createImage, formatImage, setupConfigfs]
    split_ifs <;> simp [hm]
  | prepare files => exact absurd hop (by simp [UsbOp.isPrepare])
  | expose =>
    refine ⟨?_, ?_⟩
    · rw [show (usbStep s .expose) = expose s from rfl, (expose_spec s).1, hm]
    · rw [show (usbStep s .expose) = expose s from rfl, (expose_spec s).2]
      simp
  | unexpose =>
    refine ⟨?_, ?_⟩
    · rw [show (usbStep s .unexpose) = unexpose s from rfl, (unexpose_spec s).2.1, hm]
    · rw [show (usbStep s .unexpose) = unexpose s from rfl, (unexpose_spec s).2.2.2]
      simp
  | refresh files =>
    have hu := unexpose_spec s
    have hp := prepareImage_unexposed (unexpose s).2.1 files hu.2.2.1 (hu.2.1.trans hm)
    have he := expose_spec (prepareImage (unexpose s).2.1 files).2.1
    simp only [usbStep, refresh, hu.1, Bool.not_true, Bool.false_eq_true, if_false]
    by_cases hpi : (prepareImage (unexpose s).2.1 files).1
    · simp only [hpi, Bool.not_true, Bool.false_eq_true, if_false]
      by_cases hei : (expose (prepareImage (unexpose s).2.1 files).2.1).1
      · simp only [hei, Bool.not_true, Bool.false_eq_true, if_false]
        refine ⟨he.1.trans hp.1, ?_⟩
        intro e hin
        rw [hu.2.2.2, he.2] at hin
        simp only [List.nil_append, List.append_nil] at hin
        exact hp.2.2 e hin
      · simp only [hei, Bool.not_false, if_true]
        refine ⟨he.1.trans hp.1, ?_⟩
        intro e hin
        rw [hu.2.2.2, he.2] at hin
        simp only [List.nil_append, List.append_nil] at hin
        exact hp.2.2 e hin
    · simp only [hpi, Bool.not_false, if_true]
      have he2 := expose_spec (prepareImage (unexpose s).2.1 files).2.1
      refine ⟨he2.1.trans hp.1, ?_⟩
      intro e hin
      rw [hu.2.2.2, he2.2] at hin
      simp only [List.nil_append, List.append_nil] at hin
      exact hp.2.2 e hin
  | cleanup =>
    have hu := unexpose_spec s
    refine ⟨?_, ?_⟩
    · simp only [usbStep, usbCleanup, unmountImage, teardownConfigfs]
      split_ifs <;> simp
    · simp only [usbStep, usbCleanup, unmountImage, teardownConfigfs]
      intro e hin
      rw [hu.2.2.2] at hin
      simp only [List.nil_append] at hin
      split_ifs at hin <;> simp only [List.append_nil, List.mem_singleton] at hin <;>
        (rw [hin]; exact hu.2.2.1)

/-- Claim C3, amended: over every sequence of public operations in which
prepareImage is only reached through refresh or cleanup (refresh
unexposes before preparing and cleanup unexposes before unmounting),
starting from any state with the image unmounted, the image stays
unmounted at every operation boundary and every observed
mount/copy/delete/unmount call happens while the gadget is not exposed.
A direct prepareImage call while Exposed violates this — see the
counterexample. -/
theorem no_image_mutation_while_exposed (s : UsbState) (ops : List UsbOp)
    (hops : ∀ op ∈ ops, op.isPrepare = false) (hm : s.mounted = false) :
    (usbRun s ops).1.mounted = false ∧
    ∀ e ∈ (usbRun s ops).2, e.exposedAt = false := by
  induction ops generalizing s with
  | nil => exact ⟨hm, by simp [usbRun]⟩
  | cons op rest ih =>
    have hop := hops op (by simp)
    have hstep := usbStep_safe s op hop hm
    have hrest := ih (usbStep s op).2.1 (fun o ho => hops o (by simp [ho])) hstep.1
    refine ⟨?_, ?_⟩
    · simpa [usbRun] using hrest.1
    · intro e hin
      simp only [usbRun, List.mem_append] at hin
      rcases hin with hin | hin
      · exact hstep.2 e hin
      · exact hrest.2 e hin

/-- Witness for the amended C3: the external-loop usage init, refresh,
cleanup from the initial state mutates the image only while unexposed. -/
theorem no_image_mutation_while_exposed_witness :
    (usbRun (usbInit0 ["udc0"])
        [UsbOp.init, UsbOp.refresh [("a", "b")], UsbOp.cleanup]).1.mounted = false ∧
    ∀ e ∈ (usbRun (usbInit0 ["udc0"])
        [UsbOp.init, UsbOp.refresh [("a", "b")], UsbOp.cleanup]).2, e.exposedAt = false :=
  no_image_mutation_while_exposed (usbInit0 ["udc0"])
    [UsbOp.init, UsbOp.refresh [("a", "b")], UsbOp.cleanup] (by decide) rfl

/-- Counterexample to C3 as stated: in the public-operation sequence
init, expose, prepareImage, the image is mounted (and mutated) while the
gadget is exposed to the host. -/
theorem prepare_while_exposed_counterexample :
    UEv.mk UEvKind.mount true ∈
      (usbRun (usbInit0 ["udc0"])
        [UsbOp.init, UsbOp.expose, UsbOp.prepare [("src", "log.txt")]]).2 := by
  decide

/-- Claim C5, amended: expose and prepareImage check no orchestrator
state.  Called before a successful init they fail for platform reasons —
expose returns false with no state change when the configfs skeleton is
absent, prepareImage returns false with no state change (one failed
mount call observed) when the backing image is absent — but called in
any state with the skeleton present and a UDC available, expose succeeds
even while already Exposed. -/
theorem expose_prepare_no_state_check (s : UsbState) (files : List (String × String)) :
    (s.configfs = false → expose s = (false, s, [])) ∧
    (s.imageExists = false →
      prepareImage s files = (false, s, [⟨UEvKind.mount, s.exposed⟩])) ∧
    (s.configfs = true → s.udcs ≠ [] → (expose s).1 = true) := by
  refine ⟨?_, ?_, ?_⟩
  · intro h
    unfold expose
    simp [h]
  · intro h
    unfold prepareImage mountImage
    simp [h]
  · intro h hu
    unfold expose
    simp only [h, Bool.not_true, Bool.false_eq_true, if_false]
    cases hc : s.udcs with
    | nil => exact absurd hc hu
    | cons u rest => rfl

/-- Witness for the amended C5 at the uninitialized state: both
operations fail with no state change. -/
theorem expose_prepare_no_state_check_witness :
    expose (usbInit0 []) = (false, usbInit0 [], []) ∧
    prepareImage (usbInit0 []) [("a", "b")] =
      (false, usbInit0 [], [⟨UEvKind.mount, false⟩]) :=
  ⟨(expose_prepare_no_state_check (usbInit0 []) [("a", "b")]).1 rfl,
   (expose_prepare_no_state_check (usbInit0 []) [("a", "b")]).2.1 rfl⟩

/-- Counterexample to C5 as stated: after init and expose the state is
Exposed (not Ready), yet a second expose returns true and a direct
prepareImage also returns true — neither operation is rejected with
false as the claim requires. -/
theorem expose_while_exposed_counterexample :
    (usbRun (usbInit0 ["udc0"]) [UsbOp.init, UsbOp.expose]).1.exposed = true ∧
    (expose (usbRun (usbInit0 ["udc0"]) [UsbOp.init, UsbOp.expose]).1).1 = true ∧
    (prepareImage (usbRun (usbInit0 ["udc0"]) [UsbOp.init, UsbOp.expose]).1
        [("s", "d")]).1 = true := by
  exact ⟨by decide, by decide, by decide⟩


/-! ### AES-256-CBC (C1, C7)

The inverse of the block cipher follows the structure of the source:
the final addRoundKey cancels, each inverse middle round undoes one
forward round by telescoping, and the inverse column mix is established
through GF(2 pow 8) linearity of gmul plus a 256-case check per basis
position. -/

/-- Left commutativity of Nat xor. -/
theorem natXorLeftComm (a b c : Nat) : a ^^^ (b ^^^ c) = b ^^^ (a ^^^ c) := by
  rw [← Nat.xor_assoc, Nat.xor_comm a b, Nat.xor_assoc]

/-- Exchange the middle operands of a 4-term xor. -/
theorem xor_swap_mid (a b c d : Nat) :
    (a ^^^ b) ^^^ (c ^^^ d) = (a ^^^ c) ^^^ (b ^^^ d) := by
  calc (a ^^^ b) ^^^ (c ^^^ d) = a ^^^ (b ^^^ (c ^^^ d)) := Nat.xor_assoc a b (c ^^^ d)
    _ = a ^^^ (c ^^^ (b ^^^ d)) := by rw [natXorLeftComm b c d]
    _ = (a ^^^ c) ^^^ (b ^^^ d) := (Nat.xor_assoc a c (b ^^^ d)).symm

/-- Regroup a chain of four xored pairs into the xor of two chains. -/
theorem xor_interleave (u1 v1 u2 v2 u3 v3 u4 v4 : Nat) :
    (u1 ^^^ v1) ^^^ (u2 ^^^ v2) ^^^ (u3 ^^^ v3) ^^^ (u4 ^^^ v4) =
      (u1 ^^^ u2 ^^^ u3 ^^^ u4) ^^^ (v1 ^^^ v2 ^^^ v3 ^^^ v4) := by
  calc (u1 ^^^ v1) ^^^ (u2 ^^^ v2) ^^^ (u3 ^^^ v3) ^^^ (u4 ^^^ v4)
      = ((u1 ^^^ v1) ^^^ (u2 ^^^ v2)) ^^^ ((u3 ^^^ v3) ^^^ (u4 ^^^ v4)) :=
        Nat.xor_assoc _ _ _
    _ = ((u1 ^^^ u2) ^^^ (v1 ^^^ v2)) ^^^ ((u3 ^^^ u4) ^^^ (v3 ^^^ v4)) := by
        rw [xor_swap_mid u1 v1 u2 v2, xor_swap_mid u3 v3 u4 v4]
    _ = ((u1 ^^^ u2) ^^^ (u3 ^^^ u4)) ^^^ ((v1 ^^^ v2) ^^^ (v3 ^^^ v4)) :=
        xor_swap_mid _ _ _ _
    _ = (u1 ^^^ u2 ^^^ u3 ^^^ u4) ^^^ (v1 ^^^ v2 ^^^ v3 ^^^ v4) := by
        rw [← Nat.xor_assoc (u1 ^^^ u2) u3 u4, ← Nat.xor_assoc (v1 ^^^ v2) v3 v4]

/-- The GF doubling step distributes over xor. -/
theorem xtime_xor (x y : Nat) : xtime (x ^^^ y) = xtime x ^^^ xtime y := by
  unfold xtime
  have hm : ((x ^^^ y) <<< 1) &&& 255 = ((x <<< 1) &&& 255) ^^^ ((y <<< 1) &&& 255) := by
    rw [← Nat.and_xor_distrib_right]
    congr 1
    apply Nat.eq_of_testBit_eq
    intro i
    simp [Nat.testBit_shiftLeft, Nat.testBit_xor, Bool.and_xor_distrib_left]
  have hbit : (x ^^^ y) &&& 128 = (x &&& 128) ^^^ (y &&& 128) := Nat.and_xor_distrib_right
  have h128 : ∀ z : Nat, z &&& 128 = 0 ∨ z &&& 128 = 128 := by
    intro z
    have h2 : (128 : Nat) = 2 ^ 7 := by norm_num
    rw [h2, Nat.and_two_pow]
    cases z.testBit 7 <;> simp
  rcases h128 x with hx | hx <;> rcases h128 y with hy | hy
  · rw [if_pos (by rw [hbit, hx, hy]; decide), if_pos hx, if_pos hy]
    exact hm
  · rw [if_neg (by rw [hbit, hx, hy]; decide), if_pos hx, if_neg (by rw [hy]; decide)]
    rw [hm, Nat.xor_assoc]
  · rw [if_neg (by rw [hbit, hx, hy]; decide), if_neg (by rw [hx]; decide), if_pos hy]
    rw [hm, Nat.xor_assoc, Nat.xor_comm ((y <<< 1) &&& 255) 27, ← Nat.xor_assoc]
  · rw [if_pos (by rw [hbit, hx, hy]; decide), if_neg (by rw [hx]; decide),
        if_neg (by rw [hy]; decide)]
    rw [hm, xor_swap_mid]
    simp

/-- The gmul loop is additive in the accumulating pair. -/
theorem gmulAux_xor_left :
    ∀ (n a1 a2 b p1 p2 : Nat),
      gmulAux n (a1 ^^^ a2) b (p1 ^^^ p2) = gmulAux n a1 b p1 ^^^ gmulAux n a2 b p2 := by
  intro n
  induction n with
  | zero => intro a1 a2 b p1 p2; rfl
  | succ m ih =>
    intro a1 a2 b p1 p2
    simp only [gmulAux]
    by_cases hb : b &&& 1 = 0
    · rw [if_pos hb, if_pos hb, if_pos hb, xtime_xor]
      exact ih (xtime a1) (xtime a2) (b >>> 1) p1 p2
    · rw [if_neg hb, if_neg hb, if_neg hb, xtime_xor]
      have hx : (p1 ^^^ p2) ^^^ (a1 ^^^ a2) = (p1 ^^^ a1) ^^^ (p2 ^^^ a2) := by
        simp [Nat.xor_assoc, Nat.xor_comm, natXorLeftComm]
      rw [hx]
      exact ih (xtime a1) (xtime a2) (b >>> 1) (p1 ^^^ a1) (p2 ^^^ a2)

/-- gmul is additive in its first argument for any second argument. -/
theorem gmul_xor_left (a1 a2 b : Nat) :
    gmul (a1 ^^^ a2) b = gmul a1 b ^^^ gmul a2 b := by
  have h := gmulAux_xor_left 8 a1 a2 b 0 0
  simpa [gmul] using h

/-- Basis check for the inverse column mix, first position. -/
theorem invMixCol_mixCol_b0 :
    ∀ a : Fin 256, invMixCol4 (mixCol a.val 0 0 0) = (a.val, 0, 0, 0) := by decide

/-- Basis check for the inverse column mix, second position. -/
theorem invMixCol_mixCol_b1 :
    ∀ a : Fin 256, invMixCol4 (mixCol 0 a.val 0 0) = (0, a.val, 0, 0) := by decide

/-- Basis check for the inverse column mix, third position. -/
theorem invMixCol_mixCol_b2 :
    ∀ a : Fin 256, invMixCol4 (mixCol 0 0 a.val 0) = (0, 0, a.val, 0) := by decide

/-- Basis check for the inverse column mix, fourth position. -/
theorem invMixCol_mixCol_b3 :
    ∀ a : Fin 256, invMixCol4 (mixCol 0 0 0 a.val) = (0, 0, 0, a.val) := by decide

/-- The column mix is additive over xor. -/
theorem mixCol_xor (a1 b1 c1 d1 a2 b2 c2 d2 : Nat) :
    mixCol (a1 ^^^ a2) (b1 ^^^ b2) (c1 ^^^ c2) (d1 ^^^ d2) =
      xor4 (mixCol a1 b1 c1 d1) (mixCol a2 b2 c2 d2) := by
  simp only [mixCol, xor4, gmul_xor_left, Prod.mk.injEq]
  exact ⟨xor_interleave _ _ _ _ _ _ _ _, xor_interleave _ _ _ _ _ _ _ _,
         xor_interleave _ _ _ _ _ _ _ _, xor_interleave _ _ _ _ _ _ _ _⟩

/-- The inverse column mix is additive over xor. -/
theorem invMixCol4_xor4 (p q : Nat × Nat × Nat × Nat) :
    invMixCol4 (xor4 p q) = xor4 (invMixCol4 p) (invMixCol4 q) := by
  obtain ⟨p0, p1, p2, p3⟩ := p
  obtain ⟨q0, q1, q2, q3⟩ := q
  simp only [invMixCol4, xor4, invMixCol, gmul_xor_left, Prod.mk.injEq]
  exact ⟨xor_interleave _ _ _ _ _ _ _ _, xor_interleave _ _ _ _ _ _ _ _,
         xor_interleave _ _ _ _ _ _ _ _, xor_interleave _ _ _ _ _ _ _ _⟩

/-- Joint additivity of the inverse mix composed with the mix. -/
theorem invMixCol_mixCol_xor (a1 b1 c1 d1 a2 b2 c2 d2 : Nat) :
    invMixCol4 (mixCol (a1 ^^^ a2) (b1 ^^^ b2) (c1 ^^^ c2) (d1 ^^^ d2)) =
      xor4 (invMixCol4 (mixCol a1 b1 c1 d1)) (invMixCol4 (mixCol a2 b2 c2 d2)) := by
  rw [mixCol_xor, invMixCol4_xor4]

/-- The inverse column mix undoes the column mix on bytes. -/
theorem invMixCol_mixCol (a b c d : Nat)
    (ha : a < 256) (hb : b < 256) (hc : c < 256) (hd : d < 256) :
    invMixCol4 (mixCol a b c d) = (a, b, c, d) := by
  have h1 : invMixCol4 (mixCol a b c d) =
      xor4 (invMixCol4 (mixCol a 0 0 0)) (invMixCol4 (mixCol 0 b c d)) := by
    have h := invMixCol_mixCol_xor a 0 0 0 0 b c d
    simpa using h
  have h2 : invMixCol4 (mixCol 0 b c d) =
      xor4 (invMixCol4 (mixCol 0 b 0 0)) (invMixCol4 (mixCol 0 0 c d)) := by
    have h := invMixCol_mixCol_xor 0 b 0 0 0 0 c d
    simpa using h
  have h3 : invMixCol4 (mixCol 0 0 c d) =
      xor4 (invMixCol4 (mixCol 0 0 c 0)) (invMixCol4 (mixCol 0 0 0 d)) := by
    have h := invMixCol_mixCol_xor 0 0 c 0 0 0 0 d
    simpa using h
  rw [h1, h2, h3,
    invMixCol_mixCol_b0 ⟨a, ha⟩, invMixCol_mixCol_b1 ⟨b, hb⟩,
    invMixCol_mixCol_b2 ⟨c, hc⟩, invMixCol_mixCol_b3 ⟨d, hd⟩]
  simp [xor4]


/-- The S-box table has 256 entries. -/
theorem SBOX_length : SBOX.length = 256 := by rfl

/-- The inverse S-box table has 256 entries. -/
theorem INV_SBOX_length : INV_SBOX.length = 256 := by rfl

/-- Table outputs are bytes, checked entrywise. -/
theorem sbox_lt_fin : ∀ b : Fin 256, sbox b.val < 256 := by decide

/-- S-box lookups always produce a byte (out-of-range arguments give the
default 0). -/
theorem sbox_lt (b : Nat) : sbox b < 256 := by
  by_cases h : b < 256
  · exact sbox_lt_fin ⟨b, h⟩
  · unfold sbox
    rw [List.getD_eq_getElem?_getD, List.getElem?_eq_none (by rw [SBOX_length]; omega)]
    norm_num

/-- Inverse table outputs are bytes, checked entrywise. -/
theorem invSbox_lt_fin : ∀ b : Fin 256, invSbox b.val < 256 := by decide

/-- Inverse S-box lookups always produce a byte. -/
theorem invSbox_lt (b : Nat) : invSbox b < 256 := by
  by_cases h : b < 256
  · exact invSbox_lt_fin ⟨b, h⟩
  · unfold invSbox
    rw [List.getD_eq_getElem?_getD, List.getElem?_eq_none (by rw [INV_SBOX_length]; omega)]
    norm_num

/-- The inverse S-box undoes the S-box, checked entrywise. -/
theorem invSbox_sbox_fin : ∀ b : Fin 256, invSbox (sbox b.val) = b.val := by decide

/-- The inverse S-box undoes the S-box on bytes. -/
theorem invSbox_sbox (x : Nat) (h : x < 256) : invSbox (sbox x) = x :=
  invSbox_sbox_fin ⟨x, h⟩

/-- Xor of two bytes is a byte. -/
theorem xor_lt_256 {x y : Nat} (hx : x < 256) (hy : y < 256) : x ^^^ y < 256 := by
  have h8 : (256 : Nat) = 2 ^ 8 := by norm_num
  rw [h8] at hx hy ⊢
  exact Nat.xor_lt_two_pow hx hy

/-- The doubling step produces a byte. -/
theorem xtime_lt (a : Nat) : xtime a < 256 := by
  unfold xtime
  have h1 : (a <<< 1) &&& 255 < 256 := by
    have h := Nat.and_le_right (n := a <<< 1) (m := 255)
    omega
  split
  · exact h1
  · exact xor_lt_256 h1 (by norm_num)

/-- The gmul loop keeps its accumulator a byte. -/
theorem gmulAux_lt : ∀ (n a b p : Nat), a < 256 → p < 256 → gmulAux n a b p < 256 := by
  intro n
  induction n with
  | zero => intro a b p _ hp; exact hp
  | succ m ih =>
    intro a b p ha hp
    simp only [gmulAux]
    split
    · exact ih _ _ _ (xtime_lt a) hp
    · exact ih _ _ _ (xtime_lt a) (xor_lt_256 hp ha)

/-- gmul of a byte is a byte. -/
theorem gmul_lt (a b : Nat) (ha : a < 256) : gmul a b < 256 :=
  gmulAux_lt 8 a b 0 ha (by norm_num)

/-- Round-key bytes are bytes. -/
theorem kb_lt (w r : Nat) : kb w r < 256 := by
  unfold kb
  have h := Nat.and_le_right (n := w >>> (24 - 8 * r)) (m := 255)
  omega

/-- subBytes always yields a byte state. -/
theorem okB_subBytes (st : B16) : okB (subBytes st) :=
  ⟨sbox_lt _, sbox_lt _, sbox_lt _, sbox_lt _, sbox_lt _, sbox_lt _, sbox_lt _, sbox_lt _,
   sbox_lt _, sbox_lt _, sbox_lt _, sbox_lt _, sbox_lt _, sbox_lt _, sbox_lt _, sbox_lt _⟩

/-- shiftRows permutes a byte state. -/
theorem okB_shiftRows {st : B16} (h : okB st) : okB (shiftRows st) := by
  obtain ⟨h0, h1, h2, h3, h4, h5, h6, h7, h8, h9, h10, h11, h12, h13, h14, h15⟩ := h
  exact ⟨h0, h5, h10, h15, h4, h9, h14, h3, h8, h13, h2, h7, h12, h1, h6, h11⟩

/-- All four outputs of a column mix of bytes are bytes. -/
theorem mixCol_lt {a b c d : Nat} (ha : a < 256) (hb : b < 256) (hc : c < 256) (hd : d < 256) :
    (mixCol a b c d).1 < 256 ∧ (mixCol a b c d).2.1 < 256 ∧
    (mixCol a b c d).2.2.1 < 256 ∧ (mixCol a b c d).2.2.2 < 256 := by
  unfold mixCol
  exact ⟨xor_lt_256 (xor_lt_256 (xor_lt_256 (gmul_lt _ _ ha) (gmul_lt _ _ hb)) hc) hd,
         xor_lt_256 (xor_lt_256 (xor_lt_256 ha (gmul_lt _ _ hb)) (gmul_lt _ _ hc)) hd,
         xor_lt_256 (xor_lt_256 (xor_lt_256 ha hb) (gmul_lt _ _ hc)) (gmul_lt _ _ hd),
         xor_lt_256 (xor_lt_256 (xor_lt_256 (gmul_lt _ _ ha) hb) hc) (gmul_lt _ _ hd)⟩

/-- mixColumns preserves byte states. -/
theorem okB_mixColumns {st : B16} (h : okB st) : okB (mixColumns st) := by
  obtain ⟨h0, h1, h2, h3, h4, h5, h6, h7, h8, h9, h10, h11, h12, h13, h14, h15⟩ := h
  have c0 := mixCol_lt h0 h1 h2 h3
  have c1 := mixCol_lt h4 h5 h6 h7
  have c2 := mixCol_lt h8 h9 h10 h11
  have c3 := mixCol_lt h12 h13 h14 h15
  exact ⟨c0.1, c0.2.1, c0.2.2.1, c0.2.2.2, c1.1, c1.2.1, c1.2.2.1, c1.2.2.2,
         c2.1, c2.2.1, c2.2.2.1, c2.2.2.2, c3.1, c3.2.1, c3.2.2.1, c3.2.2.2⟩

/-- addRoundKey preserves byte states. -/
theorem okB_addRoundKey {st : B16} (h : okB st) (k : RK) : okB (addRoundKey st k) := by
  obtain ⟨h0, h1, h2, h3, h4, h5, h6, h7, h8, h9, h10, h11, h12, h13, h14, h15⟩ := h
  exact ⟨xor_lt_256 h0 (kb_lt _ _), xor_lt_256 h1 (kb_lt _ _), xor_lt_256 h2 (kb_lt _ _),
         xor_lt_256 h3 (kb_lt _ _), xor_lt_256 h4 (kb_lt _ _), xor_lt_256 h5 (kb_lt _ _),
         xor_lt_256 h6 (kb_lt _ _), xor_lt_256 h7 (kb_lt _ _), xor_lt_256 h8 (kb_lt _ _),
         xor_lt_256 h9 (kb_lt _ _), xor_lt_256 h10 (kb_lt _ _), xor_lt_256 h11 (kb_lt _ _),
         xor_lt_256 h12 (kb_lt _ _), xor_lt_256 h13 (kb_lt _ _), xor_lt_256 h14 (kb_lt _ _),
         xor_lt_256 h15 (kb_lt _ _)⟩

/-- Blockwise xor of byte states is a byte state. -/
theorem okB_xorB {x y : B16} (hx : okB x) (hy : okB y) : okB (xorB x y) := by
  obtain ⟨a0, a1, a2, a3, a4, a5, a6, a7, a8, a9, a10, a11, a12, a13, a14, a15⟩ := hx
  obtain ⟨b0, b1, b2, b3, b4, b5, b6, b7, b8, b9, b10, b11, b12, b13, b14, b15⟩ := hy
  exact ⟨xor_lt_256 a0 b0, xor_lt_256 a1 b1, xor_lt_256 a2 b2, xor_lt_256 a3 b3,
         xor_lt_256 a4 b4, xor_lt_256 a5 b5, xor_lt_256 a6 b6, xor_lt_256 a7 b7,
         xor_lt_256 a8 b8, xor_lt_256 a9 b9, xor_lt_256 a10 b10, xor_lt_256 a11 b11,
         xor_lt_256 a12 b12, xor_lt_256 a13 b13, xor_lt_256 a14 b14, xor_lt_256 a15 b15⟩

/-- One forward round always yields a byte state. -/
theorem okB_encRound (st : B16) (k : RK) : okB (encRound st k) :=
  okB_addRoundKey (okB_mixColumns (okB_shiftRows (okB_subBytes st))) k

/-- The encryption output is always a byte state. -/
theorem okB_aesEncryptBlock (ws : List Nat) (x : B16) : okB (aesEncryptBlock ws x) := by
  unfold aesEncryptBlock
  exact okB_addRoundKey (okB_shiftRows (okB_subBytes _)) _

/-- invShiftRows undoes shiftRows. -/
theorem invShiftRows_shiftRows (st : B16) : invShiftRows (shiftRows st) = st := rfl

/-- invSubBytes undoes subBytes on byte states. -/
theorem invSubBytes_subBytes {st : B16} (h : okB st) : invSubBytes (subBytes st) = st := by
  obtain ⟨h0, h1, h2, h3, h4, h5, h6, h7, h8, h9, h10, h11, h12, h13, h14, h15⟩ := h
  unfold invSubBytes subBytes
  rw [invSbox_sbox _ h0, invSbox_sbox _ h1, invSbox_sbox _ h2, invSbox_sbox _ h3,
      invSbox_sbox _ h4, invSbox_sbox _ h5, invSbox_sbox _ h6, invSbox_sbox _ h7,
      invSbox_sbox _ h8, invSbox_sbox _ h9, invSbox_sbox _ h10, invSbox_sbox _ h11,
      invSbox_sbox _ h12, invSbox_sbox _ h13, invSbox_sbox _ h14, invSbox_sbox _ h15]

/-- addRoundKey with the same round key is an involution. -/
theorem addRoundKey_addRoundKey (st : B16) (k : RK) :
    addRoundKey (addRoundKey st k) k = st := by
  cases st with
  | mk s0 s1 s2 s3 s4 s5 s6 s7 s8 s9 s10 s11 s12 s13 s14 s15 =>
    unfold addRoundKey
    simp only [Nat.xor_cancel_right]

/-- invMixColumns undoes mixColumns on byte states. -/
theorem invMixColumns_mixColumns {st : B16} (h : okB st) :
    invMixColumns (mixColumns st) = st := by
  cases st with
  | mk s0 s1 s2 s3 s4 s5 s6 s7 s8 s9 s10 s11 s12 s13 s14 s15 =>
    obtain ⟨h0, h1, h2, h3, h4, h5, h6, h7, h8, h9, h10, h11, h12, h13, h14, h15⟩ := h
    have e0 : invMixCol (mixCol s0 s1 s2 s3).1 (mixCol s0 s1 s2 s3).2.1
        (mixCol s0 s1 s2 s3).2.2.1 (mixCol s0 s1 s2 s3).2.2.2 = (s0, s1, s2, s3) :=
      invMixCol_mixCol s0 s1 s2 s3 h0 h1 h2 h3
    have e1 : invMixCol (mixCol s4 s5 s6 s7).1 (mixCol s4 s5 s6 s7).2.1
        (mixCol s4 s5 s6 s7).2.2.1 (mixCol s4 s5 s6 s7).2.2.2 = (s4, s5, s6, s7) :=
      invMixCol_mixCol s4 s5 s6 s7 h4 h5 h6 h7
    have e2 : invMixCol (mixCol s8 s9 s10 s11).1 (mixCol s8 s9 s10 s11).2.1
        (mixCol s8 s9 s10 s11).2.2.1 (mixCol s8 s9 s10 s11).2.2.2 = (s8, s9, s10, s11) :=
      invMixCol_mixCol s8 s9 s10 s11 h8 h9 h10 h11
    have e3 : invMixCol (mixCol s12 s13 s14 s15).1 (mixCol s12 s13 s14 s15).2.1
        (mixCol s12 s13 s14 s15).2.2.1 (mixCol s12 s13 s14 s15).2.2.2 = (s12, s13, s14, s15) :=
      invMixCol_mixCol s12 s13 s14 s15 h12 h13 h14 h15
    dsimp only [mixColumns, invMixColumns]
    rw [e0, e1, e2, e3]

/-- One inverse middle round undoes one forward middle round under the
shiftRows-subBytes image. -/
theorem decRound_encRound (x : B16) (k : RK) (h : okB x) :
    decRound (shiftRows (subBytes (encRound x k))) k = shiftRows (subBytes x) := by
  unfold decRound encRound
  rw [invShiftRows_shiftRows,
      invSubBytes_subBytes (okB_addRoundKey (okB_mixColumns (okB_shiftRows (okB_subBytes x))) k),
      addRoundKey_addRoundKey,
      invMixColumns_mixColumns (okB_shiftRows (okB_subBytes x))]

/-- Telescoping of the 13 inverse middle rounds against the 13 forward
middle rounds. -/
theorem decFold_encFold (ks : List RK) :
    ∀ x : B16, okB x →
      ks.reverse.foldl decRound (shiftRows (subBytes (ks.foldl encRound x))) =
        shiftRows (subBytes x) := by
  induction ks with
  | nil => intro x _; rfl
  | cons k ks ih =>
    intro x hx
    rw [List.reverse_cons, List.foldl_append]
    show List.foldl decRound
        (ks.reverse.foldl decRound (shiftRows (subBytes (ks.foldl encRound (encRound x k)))))
        [k] = shiftRows (subBytes x)
    rw [ih (encRound x k) (okB_encRound x k)]
    show decRound (shiftRows (subBytes (encRound x k))) k = shiftRows (subBytes x)
    exact decRound_encRound x k hx

/-- The inverse block cipher undoes the block cipher on byte states with
the same round keys, as in the source round structure. -/
theorem aesDecryptBlock_aesEncryptBlock (ws : List Nat) (x : B16) (h : okB x) :
    aesDecryptBlock ws (aesEncryptBlock ws x) = x := by
  simp only [aesEncryptBlock, aesDecryptBlock]
  rw [addRoundKey_addRoundKey]
  have hrev : ((List.range 13).map (fun i => rk ws (13 - i))) =
      ((List.range 13).map (fun i => rk ws (i + 1))).reverse := by rfl
  rw [hrev, decFold_encFold ((List.range 13).map (fun i => rk ws (i + 1)))
        (addRoundKey x (rk ws 0)) (okB_addRoundKey h (rk ws 0)),
      invShiftRows_shiftRows, invSubBytes_subBytes (okB_addRoundKey h (rk ws 0)),
      addRoundKey_addRoundKey]

/-- Xor with the same block twice is the identity. -/
theorem xorB_cancel (x y : B16) : xorB (xorB x y) y = x := by
  cases x with
  | mk x0 x1 x2 x3 x4 x5 x6 x7 x8 x9 x10 x11 x12 x13 x14 x15 =>
    cases y with
    | mk y0 y1 y2 y3 y4 y5 y6 y7 y8 y9 y10 y11 y12 y13 y14 y15 =>
      unfold xorB
      simp only [Nat.xor_cancel_right]

/-- CBC decryption undoes CBC encryption blockwise. -/
theorem cbcDecrypt_cbcEncrypt (ws : List Nat) :
    ∀ (bs : List B16) (prev : B16), okB prev → (∀ b ∈ bs, okB b) →
      cbcDecryptBlocks ws prev (cbcEncryptBlocks ws prev bs) = bs := by
  intro bs
  induction bs with
  | nil => intro prev _ _; rfl
  | cons b rest ih =>
    intro prev hprev hall
    simp only [cbcEncryptBlocks, cbcDecryptBlocks]
    rw [aesDecryptBlock_aesEncryptBlock ws (xorB b prev) (okB_xorB (hall b (by simp)) hprev),
        xorB_cancel,
        ih (aesEncryptBlock ws (xorB b prev)) (okB_aesEncryptBlock ws _)
          (fun x hx => hall x (by simp [hx]))]

/-- Stripping the padding undoes adding it. -/
theorem pkcs7Unpad_pkcs7Pad (data : List Nat) : pkcs7Unpad (pkcs7Pad data) = data := by
  unfold pkcs7Pad pkcs7Unpad
  set p := 16 - data.length % 16 with hp
  have hp1 : 1 ≤ p := by omega
  have hp16 : p ≤ 16 := by omega
  obtain ⟨q, hq⟩ : ∃ q, p = q + 1 := ⟨p - 1, by omega⟩
  have hlen : (data ++ List.replicate p p).length = data.length + p := by simp
  have hne : ¬ (data ++ List.replicate p p) = [] := by
    intro hc
    have := congrArg List.length hc
    simp at this
    omega
  rw [if_neg hne]
  have hsplit : data ++ List.replicate p p = (data ++ List.replicate q p) ++ [p] := by
    rw [hq, List.replicate_succ', ← List.append_assoc]
  have hlast : (data ++ List.replicate p p).getLastD 0 = p := by
    rw [hsplit, List.getLastD_concat]
  rw [hlast]
  rw [if_neg (by rw [hlen]; omega)]
  have hdlen : (data ++ List.replicate p p).length - p = data.length := by
    rw [hlen]; omega
  have hdrop : (data ++ List.replicate p p).drop ((data ++ List.replicate p p).length - p) =
      List.replicate p p := by
    rw [hdlen, List.drop_left]
  rw [hdrop]
  rw [if_pos (by simp)]
  rw [hdlen, List.take_left]

/-- Serialization of a block has 16 bytes. -/
theorem length_fromB16 (b : B16) : (fromB16 b).length = 16 := rfl

/-- Packing 16 bytes and serializing them is the identity. -/
theorem fromB16_toB16 (l : List Nat) (h : l.length = 16) : fromB16 (toB16 l) = l := by
  rcases l with _ | ⟨a0, l⟩
  · simp at h
  rcases l with _ | ⟨a1, l⟩
  · simp at h
  rcases l with _ | ⟨a2, l⟩
  · simp only [List.length_cons, List.length_nil] at h; omega
  rcases l with _ | ⟨a3, l⟩
  · simp only [List.length_cons, List.length_nil] at h; omega
  rcases l with _ | ⟨a4, l⟩
  · simp only [List.length_cons, List.length_nil] at h; omega
  rcases l with _ | ⟨a5, l⟩
  · simp only [List.length_cons, List.length_nil] at h; omega
  rcases l with _ | ⟨a6, l⟩
  · simp only [List.length_cons, List.length_nil] at h; omega
  rcases l with _ | ⟨a7, l⟩
  · simp only [List.length_cons, List.length_nil] at h; omega
  rcases l with _ | ⟨a8, l⟩
  · simp only [List.length_cons, List.length_nil] at h; omega
  rcases l with _ | ⟨a9, l⟩
  · simp only [List.length_cons, List.length_nil] at h; omega
  rcases l with _ | ⟨a10, l⟩
  · simp only [List.length_cons, List.length_nil] at h; omega
  rcases l with _ | ⟨a11, l⟩
  · simp only [List.length_cons, List.length_nil] at h; omega
  rcases l with _ | ⟨a12, l⟩
  · simp only [List.length_cons, List.length_nil] at h; omega
  rcases l with _ | ⟨a13, l⟩
  · simp only [List.length_cons, List.length_nil] at h; omega
  rcases l with _ | ⟨a14, l⟩
  · simp only [List.length_cons, List.length_nil] at h; omega
  rcases l with _ | ⟨a15, l⟩
  · simp only [List.length_cons, List.length_nil] at h; omega
  rcases l with _ | ⟨a16, l⟩
  · rfl
  · simp only [List.length_cons, List.length_nil] at h; omega

/-- Re-chunking a serialized block list recovers it. -/
theorem toBlocks_fromBlocks : ∀ bs : List B16, toBlocks (fromBlocks bs) = bs := by
  intro bs
  induction bs with
  | nil => rw [toBlocks]; simp [fromBlocks]
  | cons b rest ih =>
    have hfb : fromBlocks (b :: rest) = fromB16 b ++ fromBlocks rest := by
      simp [fromBlocks]
    rw [hfb, toBlocks, dif_neg (by
      intro hc
      have := congrArg List.length hc
      simp [length_fromB16] at this)]
    rw [List.take_left' (length_fromB16 b), List.drop_left' (length_fromB16 b), ih]
    rfl

/-- Serializing the chunking of a 16-aligned byte list recovers it. -/
theorem fromBlocks_toBlocks (l : List Nat) (hmod : l.length % 16 = 0) :
    fromBlocks (toBlocks l) = l := by
  generalize hk : l.length = k
  induction k using Nat.strong_induction_on generalizing l with
  | _ k ih =>
    rw [toBlocks]
    by_cases h : l = []
    · rw [dif_pos h]
      simp [fromBlocks, h]
    · rw [dif_neg h]
      have hpos := List.length_pos.mpr h
      have h16 : 16 ≤ l.length := by omega
      have htake : (l.take 16).length = 16 := by
        rw [List.length_take]; omega
      have hstep : fromBlocks (toB16 (l.take 16) :: toBlocks (l.drop 16)) =
          fromB16 (toB16 (l.take 16)) ++ fromBlocks (toBlocks (l.drop 16)) := by
        simp [fromBlocks]
      rw [hstep, fromB16_toB16 _ htake,
        ih (l.drop 16).length (by simp only [List.length_drop]; omega) (l.drop 16)
          (by simp only [List.length_drop]; omega) rfl,
        List.take_append_drop]

/-- Serialized blocks have 16 bytes each. -/
theorem length_fromBlocks : ∀ bs : List B16, (fromBlocks bs).length = 16 * bs.length := by
  intro bs
  induction bs with
  | nil => simp [fromBlocks]
  | cons b rest ih =>
    have hfb : fromBlocks (b :: rest) = fromB16 b ++ fromBlocks rest := by
      simp [fromBlocks]
    rw [hfb, List.length_append, length_fromB16, ih, List.length_cons]
    omega

/-- CBC encryption preserves the number of blocks. -/
theorem length_cbcEncryptBlocks (ws : List Nat) :
    ∀ (bs : List B16) (prev : B16), (cbcEncryptBlocks ws prev bs).length = bs.length := by
  intro bs
  induction bs with
  | nil => intro prev; rfl
  | cons b rest ih =>
    intro prev
    simp only [cbcEncryptBlocks, List.length_cons, ih]

/-- Chunk count of a 16-aligned byte list. -/
theorem toBlocks_length_mul (l : List Nat) (hmod : l.length % 16 = 0) :
    (toBlocks l).length = l.length / 16 := by
  generalize hk : l.length = k
  induction k using Nat.strong_induction_on generalizing l with
  | _ k ih =>
    rw [toBlocks]
    by_cases h : l = []
    · rw [dif_pos h]
      subst h
      simp at hk
      simp [← hk]
    · rw [dif_neg h]
      have hpos := List.length_pos.mpr h
      have h16 : 16 ≤ l.length := by omega
      rw [List.length_cons,
        ih (l.drop 16).length (by simp only [List.length_drop]; omega) (l.drop 16)
          (by simp only [List.length_drop]; omega) rfl]
      simp only [List.length_drop]
      omega

/-- Defaulted indexing into a byte list yields a byte. -/
theorem getD_lt_256 (l : List Nat) (h : ∀ x ∈ l, x < 256) (n : Nat) : l.getD n 0 < 256 := by
  rw [List.getD_eq_getElem?_getD]
  cases hx : l[n]? with
  | none => simp
  | some v => simpa using h v (List.getElem?_mem hx)

/-- Packing bytes gives a byte state. -/
theorem okB_toB16 (l : List Nat) (h : ∀ x ∈ l, x < 256) : okB (toB16 l) :=
  ⟨getD_lt_256 l h 0, getD_lt_256 l h 1, getD_lt_256 l h 2, getD_lt_256 l h 3,
   getD_lt_256 l h 4, getD_lt_256 l h 5, getD_lt_256 l h 6, getD_lt_256 l h 7,
   getD_lt_256 l h 8, getD_lt_256 l h 9, getD_lt_256 l h 10, getD_lt_256 l h 11,
   getD_lt_256 l h 12, getD_lt_256 l h 13, getD_lt_256 l h 14, getD_lt_256 l h 15⟩

/-- Chunking a byte list gives byte states. -/
theorem toBlocks_ok (l : List Nat) (h : ∀ x ∈ l, x < 256) : ∀ b ∈ toBlocks l, okB b := by
  generalize hk : l.length = k
  induction k using Nat.strong_induction_on generalizing l with
  | _ k ih =>
    intro b hb
    rw [toBlocks] at hb
    by_cases hl : l = []
    · rw [dif_pos hl] at hb
      simp at hb
    · rw [dif_neg hl] at hb
      have hpos := List.length_pos.mpr hl
      rcases List.mem_cons.mp hb with hb | hb
      · rw [hb]
        exact okB_toB16 _ (fun x hx => h x (List.take_subset 16 l hx))
      · exact ih (l.drop 16).length (by simp only [List.length_drop]; omega) (l.drop 16)
          (fun x hx => h x (List.drop_subset 16 l hx)) rfl b hb

/-- All padded bytes are bytes. -/
theorem pkcs7Pad_lt (data : List Nat) (h : ∀ x ∈ data, x < 256) :
    ∀ x ∈ pkcs7Pad data, x < 256 := by
  intro x hx
  unfold pkcs7Pad at hx
  rcases List.mem_append.mp hx with hx | hx
  · exact h x hx
  · have hrep := List.mem_replicate.mp hx
    omega

/-- Length accounting of the padding. -/
theorem pkcs7Pad_length (data : List Nat) :
    (pkcs7Pad data).length = data.length + (16 - data.length % 16) := by
  simp [pkcs7Pad]

/-- The padded length is 16-aligned. -/
theorem pkcs7Pad_mod (data : List Nat) : (pkcs7Pad data).length % 16 = 0 := by
  rw [pkcs7Pad_length]
  omega

/-- Claim C1: decrypting the result of encrypting any byte sequence
under the same key returns exactly the plaintext, for every key, every
16-byte IV and every plaintext.  The IV is the explicit stand-in for the
random generateIV output. -/
theorem encrypt_decrypt_id (key iv plaintext : List Nat)
    (hiv : iv.length = 16) (hivb : ∀ x ∈ iv, x < 256) (hp : ∀ x ∈ plaintext, x < 256) :
    decrypt key (encrypt key iv plaintext) = plaintext := by
  unfold encrypt decrypt
  have hmod : (pkcs7Pad plaintext).length % 16 = 0 := pkcs7Pad_mod plaintext
  have hplen : 16 ≤ (pkcs7Pad plaintext).length := by
    rw [pkcs7Pad_length]
    omega
  have henclen : (fromBlocks (cbcEncryptBlocks (aesKeyExpansion (keyBytes key)) (toB16 iv)
      (toBlocks (pkcs7Pad plaintext)))).length = 16 * ((pkcs7Pad plaintext).length / 16) := by
    rw [length_fromBlocks, length_cbcEncryptBlocks, toBlocks_length_mul _ hmod]
  rw [if_neg (by
    rw [List.length_append, hiv, henclen]
    omega)]
  rw [List.take_left' hiv, List.drop_left' hiv, toBlocks_fromBlocks]
  show pkcs7Unpad (fromBlocks (cbcDecryptBlocks (aesKeyExpansion (keyBytes key)) (toB16 iv)
      (cbcEncryptBlocks (aesKeyExpansion (keyBytes key)) (toB16 iv)
        (toBlocks (pkcs7Pad plaintext))))) = plaintext
  rw [cbcDecrypt_cbcEncrypt (aesKeyExpansion (keyBytes key)) (toBlocks (pkcs7Pad plaintext))
      (toB16 iv) (okB_toB16 iv hivb) (toBlocks_ok (pkcs7Pad plaintext) (pkcs7Pad_lt plaintext hp)),
    fromBlocks_toBlocks _ hmod]
  exact pkcs7Unpad_pkcs7Pad plaintext

/-- Witness for C1 at a concrete key, IV and plaintext. -/
theorem encrypt_decrypt_id_witness :
    (List.replicate 16 0).length = 16 ∧ (∀ x ∈ List.replicate 16 0, x < 256) ∧
    (∀ x ∈ [72, 105], x < 256) ∧
    decrypt [65] (encrypt [65] (List.replicate 16 0) [72, 105]) = [72, 105] :=
  ⟨by simp, by decide, by decide,
   encrypt_decrypt_id [65] (List.replicate 16 0) [72, 105] (by simp) (by decide) (by decide)⟩

/-- Claim C7: the ciphertext is exactly one IV block plus the padded
plaintext, whose pad always adds between 1 and 16 bytes; in total
16 + 16 times the ceiling of (n + 1) / 16 bytes for an n-byte
plaintext. -/
theorem encrypt_length (key iv plaintext : List Nat) (hiv : iv.length = 16) :
    1 ≤ 16 - plaintext.length % 16 ∧ 16 - plaintext.length % 16 ≤ 16 ∧
    (pkcs7Pad plaintext).length = plaintext.length + (16 - plaintext.length % 16) ∧
    (encrypt key iv plaintext).length = 16 + 16 * ((plaintext.length + 1 + 15) / 16) := by
  refine ⟨by omega, by omega, pkcs7Pad_length plaintext, ?_⟩
  unfold encrypt
  rw [List.length_append, hiv, length_fromBlocks, length_cbcEncryptBlocks,
    toBlocks_length_mul _ (pkcs7Pad_mod plaintext), pkcs7Pad_length]
  omega

/-- Witness for C7: a 3-byte plaintext encrypts to 32 bytes, a 16-byte
plaintext to 48 bytes (a full extra padding block). -/
theorem encrypt_length_witness :
    (encrypt [] (List.replicate 16 0) [1, 2, 3]).length = 32 ∧
    (encrypt [] (List.replicate 16 0) (List.replicate 16 7)).length = 48 := by
  constructor
  · have h := (encrypt_length [] (List.replicate 16 0) [1, 2, 3] (by simp)).2.2.2
    simpa using h
  · have h := (encrypt_length [] (List.replicate 16 0) (List.replicate 16 7) (by simp)).2.2.2
    simpa using h

end SyncV
